import Mathlib

/-!
Shallow embedding of the claimable-token ledger.

The two source variants (`src/src/token.cpp`, the primary one with
`open`/`close`, and `src/src/token/token.cpp`, the one whose `issue`
performs an inline secondary transfer) are translated into two Lean
namespaces, `token` and `token2`.  The platform pieces the contract
depends on (eosio assets and symbols, the scoped `multi_index` storage
substrate with its RAM-payer billing, `require_auth`, `is_account`) are
modelled explicitly:

* a table is an association list; the `accounts` table is scoped by the
  owner name and the primary key of a row is computed from the row itself
  (`balance.symbol.code`), exactly as `multi_index` derives it from
  `account::primary_key()`; the `stat` table is keyed by the raw symbol
  code (its scope and primary key coincide in the source);
* every stored row carries the identity currently billed for its RAM
  (`payer`); `emplace` bills its explicit payer argument, `modify` with
  `same_payer` keeps the current payer, and `modify` with an explicit
  payer re-assigns the row's RAM billing to that payer (the platform's
  documented billing rule for row updates);
* `eosio::check` / `eosio_assert` abort the whole action; an aborted
  action is rolled back by the hosting chain, so an action denotes a
  partial function on ledger states (`Option State`);
* amounts are `Int` with the platform's explicit `±(2^62 - 1)` range
  checks in asset arithmetic (the checks fire before any int64 wrap can
  happen, so `Int` with explicit bounds is exact);
* `require_recipient` only notifies observers and never mutates ledger
  state, so it has no trace in the state function;
* the memo checks compare the memo size against 256; memos are `String`
  and the byte-size check is modelled on `String.length` (the checks in
  scope only ever compare against the constant 256).
-/

/-- Abort-style guard: `chk p k` continues with `k` when the checked
condition holds and aborts the whole action otherwise.  This is
`eosio::check cond msg` (`eosio_assert` in the second variant); the
failure message is irrelevant to the state semantics and omitted. -/
def chk {α : Type} (p : Prop) [Decidable p] (k : Option α) : Option α :=
  if p then k else none

/-- A token symbol: the raw 1–7 uppercase-letter code (least significant
byte first, as in the platform's `symbol_code`) plus a decimal
precision. -/
structure Symb where
  code : Nat
  precision : Nat
deriving DecidableEq

/-- Byte loop of the platform's `symbol_code::is_valid`: the low bytes of
the raw code must be uppercase letters (65–90) and once a zero byte is
reached every remaining byte must be zero, for at most 7 bytes. -/
def validCodeAux : Nat → Nat → Bool
  | 0, v => decide (v = 0)
  | fuel + 1, v =>
    if v = 0 then true
    else (decide (65 ≤ v % 256) && decide (v % 256 ≤ 90)) && validCodeAux fuel (v / 256)

/-- `symbol.is_valid()`: the code consists of 1–7 uppercase letters. -/
def Symb.is_valid (s : Symb) : Bool :=
  decide (s.code ≠ 0) && validCodeAux 7 s.code

/-- `eosio::asset`: a signed amount together with its symbol. -/
structure Asset where
  amount : Int
  symbol : Symb
deriving DecidableEq

namespace Asset

/-- `asset::max_amount = 2^62 - 1`. -/
def max_amount : Int := 2 ^ 62 - 1

/-- `asset::is_amount_within_range()`. -/
def is_amount_within_range (a : Asset) : Bool :=
  decide (-max_amount ≤ a.amount) && decide (a.amount ≤ max_amount)

/-- `asset::is_valid()`. -/
def is_valid (a : Asset) : Bool :=
  a.is_amount_within_range && a.symbol.is_valid

/-- `asset::operator+=`: the symbols must agree and the checked sum must
stay within `±max_amount`; a violated check aborts the action. -/
def add (a b : Asset) : Option Asset :=
  chk (b.symbol = a.symbol) <|
  chk (-max_amount ≤ a.amount + b.amount) <|
  chk (a.amount + b.amount ≤ max_amount) <|
  some ⟨a.amount + b.amount, a.symbol⟩

/-- `asset::operator-=`: the symbols must agree and the checked
difference must stay within `±max_amount`. -/
def sub (a b : Asset) : Option Asset :=
  chk (b.symbol = a.symbol) <|
  chk (-max_amount ≤ a.amount - b.amount) <|
  chk (a.amount - b.amount ≤ max_amount) <|
  some ⟨a.amount - b.amount, a.symbol⟩

end Asset

/-- An account identity (`eosio::name`), by its raw 64-bit value. -/
abbrev Name := Nat

/-- A row of the `accounts` table (`TABLE account`) together with the
identity currently billed for the row's RAM.  Its primary key is
`balance.symbol.code` (`account::primary_key()`). -/
structure AccountRow where
  balance : Asset
  claimed : Bool
  payer : Name
deriving DecidableEq

/-- A row of the `stat` table (`TABLE currency_stats`).  Its RAM payer is
always the contract itself (`emplace(_self, …)`, `modify(…, same_payer,
…)`), so it is not tracked per row. -/
structure CurrencyStats where
  supply : Asset
  max_supply : Asset
  issuer : Name
deriving DecidableEq

/-- The whole ledger: the `stat` table (keyed by the raw symbol code,
which in the source is both the scope and the primary key) and the
`accounts` table (each entry is a scope –- the owner name –- paired with
a row whose primary key is derived from the row itself). -/
structure State where
  stats : List (Nat × CurrencyStats)
  accounts : List (Name × AccountRow)
deriving DecidableEq

/-- The empty ledger. -/
def State.empty : State := ⟨[], []⟩

/-- The platform context of one action: the contract's own account
(`_self`), the authorization oracle (`require_auth` succeeds on `n` iff
`auth n`), and the account-existence oracle (`is_account`). -/
structure Env where
  self : Name
  auth : Name → Bool
  isAccount : Name → Bool

/-- Point lookup in the `stat` table. -/
def findStat : List (Nat × CurrencyStats) → Nat → Option CurrencyStats
  | [], _ => none
  | e :: l, c => if e.1 = c then some e.2 else findStat l c

/-- In-place update of the `stat` row with key `c` (`statstable.modify`);
the updaters in scope never change the primary key, matching the
substrate's requirement that `modify` keeps the key. -/
def modifyStat : List (Nat × CurrencyStats) → Nat → (CurrencyStats → CurrencyStats) →
    List (Nat × CurrencyStats)
  | [], _, _ => []
  | e :: l, c, f => (if e.1 = c then (e.1, f e.2) else e) :: modifyStat l c f

/-- Point lookup in the `accounts` table: scope `o`, primary key `c`
(`accounts(_self, o.value).find(c)` resp. `.get(c)`). -/
def findAcct : List (Name × AccountRow) → Name → Nat → Option AccountRow
  | [], _, _ => none
  | e :: l, o, c =>
    if e.1 = o ∧ e.2.balance.symbol.code = c then some e.2 else findAcct l o c

/-- Erase the `accounts` row with scope `o` and primary key `c`. -/
def eraseAcct : List (Name × AccountRow) → Name → Nat → List (Name × AccountRow)
  | [], _, _ => []
  | e :: l, o, c =>
    if e.1 = o ∧ e.2.balance.symbol.code = c then l else e :: eraseAcct l o c

/-- In-place update of the `accounts` row with scope `o` and primary key
`c`; the updaters in scope never change the primary key. -/
def modifyAcct : List (Name × AccountRow) → Name → Nat → (AccountRow → AccountRow) →
    List (Name × AccountRow)
  | [], _, _, _ => []
  | e :: l, o, c, f =>
    (if e.1 = o ∧ e.2.balance.symbol.code = c then (e.1, f e.2) else e) :: modifyAcct l o c f

/-- Key uniqueness of the `accounts` table: no two rows share both their
scope and their primary key (the substrate's uniqueness constraint). -/
abbrev acctND (l : List (Name × AccountRow)) : Prop :=
  (l.map fun e => (e.1, e.2.balance.symbol.code)).Nodup

/-- Sum of the balance amounts of all `accounts` rows (over every owner)
whose primary key is the symbol code `c`. -/
def sumBal (c : Nat) : List (Name × AccountRow) → Int
  | [] => 0
  | e :: l => (if e.2.balance.symbol.code = c then e.2.balance.amount else 0) + sumBal c l

/-- The registry supply amount recorded for code `c` (0 when no registry
entry exists). -/
def supplyAt (stats : List (Nat × CurrencyStats)) (c : Nat) : Int :=
  (findStat stats c).elim 0 fun st => st.supply.amount

/-- Conservation invariant together with the substrate's key-uniqueness:
for every symbol code the balances sum to the registry supply. -/
def ConsInv (s : State) : Prop :=
  acctND s.accounts ∧ ∀ c, sumBal c s.accounts = supplyAt s.stats c

namespace token

/-! Actions of the primary variant, `src/src/token.cpp`.  The C++
parameter `from` is a Lean keyword and is rendered `frm`, the parameter
`to` collides with reserved syntax and is rendered `dst`; the action
`open` is a Lean keyword and is rendered `open_`. -/

/-- `token::create` (src/src/token.cpp:10). -/
def create (env : Env) (issuer : Name) (maximum_supply : Asset) (s : State) : Option State :=
  chk (env.auth env.self) <|
  chk maximum_supply.symbol.is_valid <|
  chk maximum_supply.is_valid <|
  chk (0 < maximum_supply.amount) <|
  match findStat s.stats maximum_supply.symbol.code with
  | some _ => none
  | none =>
    some { s with stats :=
      (maximum_supply.symbol.code,
        ⟨⟨0, maximum_supply.symbol⟩, maximum_supply, issuer⟩) :: s.stats }

/-- `token::update` (src/src/token.cpp:32). -/
def update (env : Env) (issuer : Name) (maximum_supply : Asset) (s : State) : Option State :=
  chk (env.auth env.self) <|
  chk maximum_supply.symbol.is_valid <|
  chk maximum_supply.is_valid <|
  chk (0 < maximum_supply.amount) <|
  match findStat s.stats maximum_supply.symbol.code with
  | none => none
  | some st =>
    chk (st.supply.amount ≤ maximum_supply.amount) <|
    chk (maximum_supply.symbol = st.supply.symbol) <|
    let stats1 := modifyStat s.stats maximum_supply.symbol.code
      (fun r => { r with max_supply := maximum_supply, issuer := issuer })
    some { s with stats := stats1 }

/-- `token::add_balance` (src/src/token.cpp:239): credit `value` to
`owner`, creating the row billed to `ram_payer` with the given `claimed`
flag when absent, otherwise adding in place with `same_payer`. -/
def add_balance (owner : Name) (value : Asset) (ram_payer : Name) (claimed : Bool)
    (s : State) : Option State :=
  match findAcct s.accounts owner value.symbol.code with
  | none =>
    some { s with accounts := (owner, ⟨value, claimed, ram_payer⟩) :: s.accounts }
  | some to_row =>
    match Asset.add to_row.balance value with
    | none => none
    | some b =>
      let accounts1 := modifyAcct s.accounts owner value.symbol.code
        (fun a => { a with balance := b })
      some { s with accounts := accounts1 }

/-- `token::sub_balance` (src/src/token.cpp:223): debit `value` from
`owner`; the row is erased when the debit zeroes it, otherwise updated in
place with `owner` as the explicit `modify` payer. -/
def sub_balance (owner : Name) (value : Asset) (s : State) : Option State :=
  match findAcct s.accounts owner value.symbol.code with
  | none => none
  | some from_row =>
    chk (value.amount ≤ from_row.balance.amount) <|
    if from_row.balance.amount = value.amount then
      some { s with accounts := eraseAcct s.accounts owner value.symbol.code }
    else
      match Asset.sub from_row.balance value with
      | none => none
      | some b =>
        let accounts1 := modifyAcct s.accounts owner value.symbol.code
          (fun a => { a with balance := b, payer := owner })
        some { s with accounts := accounts1 }

/-- `token::do_claim` (src/src/token.cpp:145): when the owner's row is
not yet claimed, erase it, defensively re-check that no row remains, and
re-insert the same balance claimed and billed to `payer`. -/
def do_claim (env : Env) (owner : Name) (sym : Symb) (payer : Name) (s : State) :
    Option State :=
  chk sym.is_valid <|
  chk (env.auth payer) <|
  match findAcct s.accounts owner sym.code with
  | none => none
  | some existing =>
    if existing.claimed then some s
    else
      match findAcct (eraseAcct s.accounts owner sym.code) owner sym.code with
      | some _ => none
      | none =>
        some { s with accounts :=
          (owner, ⟨existing.balance, true, payer⟩) :: eraseAcct s.accounts owner sym.code }

/-- `token::claim` (src/src/token.cpp:141). -/
def claim (env : Env) (owner : Name) (sym : Symb) (s : State) : Option State :=
  do_claim env owner sym owner s

/-- `token::issue` (src/src/token.cpp:58). -/
def issue (env : Env) (dst : Name) (quantity : Asset) (memo : String) (s : State) :
    Option State :=
  chk quantity.symbol.is_valid <|
  chk (memo.length ≤ 256) <|
  match findStat s.stats quantity.symbol.code with
  | none => none
  | some st =>
    chk (dst = st.issuer) <|
    chk (env.auth st.issuer) <|
    chk quantity.is_valid <|
    chk (0 < quantity.amount) <|
    chk (quantity.symbol = st.supply.symbol) <|
    chk (quantity.amount ≤ st.max_supply.amount - st.supply.amount) <|
    match Asset.add st.supply quantity with
    | none => none
    | some supply1 =>
      let stats1 := modifyStat s.stats quantity.symbol.code
        (fun r => { r with supply := supply1 })
      add_balance st.issuer quantity st.issuer true { s with stats := stats1 }

/-- `token::burn` (src/src/token.cpp:85). -/
def burn (env : Env) (frm : Name) (quantity : Asset) (s : State) : Option State :=
  chk quantity.symbol.is_valid <|
  match findStat s.stats quantity.symbol.code with
  | none => none
  | some st =>
    chk (env.auth st.issuer) <|
    chk quantity.is_valid <|
    chk (0 < quantity.amount) <|
    chk (quantity.symbol = st.supply.symbol) <|
    match Asset.sub st.supply quantity with
    | none => none
    | some supply1 =>
      let stats1 := modifyStat s.stats quantity.symbol.code
        (fun r => { r with supply := supply1 })
      sub_balance frm quantity { s with stats := stats1 }

/-- `token::transfer` (src/src/token.cpp:108).  `require_recipient` only
notifies and does not change state. -/
def transfer (env : Env) (frm dst : Name) (quantity : Asset) (memo : String) (s : State) :
    Option State :=
  chk (frm ≠ dst) <|
  chk (env.auth frm) <|
  chk (env.isAccount dst) <|
  match findStat s.stats quantity.symbol.code with
  | none => none
  | some st =>
    chk quantity.is_valid <|
    chk (0 < quantity.amount) <|
    chk (quantity.symbol = st.supply.symbol) <|
    chk (memo.length ≤ 256) <|
    (do_claim env frm quantity.symbol frm s).bind fun s1 =>
    (sub_balance frm quantity s1).bind fun s2 =>
    (add_balance dst quantity frm (decide (frm ≠ st.issuer)) s2).bind fun s3 =>
    if frm ≠ st.issuer then do_claim env dst quantity.symbol frm s3 else some s3

/-- `token::recover` (src/src/token.cpp:170). -/
def recover (env : Env) (owner : Name) (sym : Symb) (s : State) : Option State :=
  match findStat s.stats sym.code with
  | none => none
  | some st =>
    chk (env.auth st.issuer) <|
    match findAcct s.accounts owner sym.code with
    | none => some s
    | some owned =>
      if owned.claimed then some s
      else
        (sub_balance owner owned.balance s).bind fun s1 =>
        add_balance st.issuer owned.balance st.issuer true s1

/-- `token::open` (src/src/token.cpp:192). -/
def open_ (env : Env) (owner : Name) (symbol : Symb) (ram_payer : Name) (s : State) :
    Option State :=
  chk (env.auth ram_payer) <|
  chk (env.isAccount owner) <|
  match findStat s.stats symbol.code with
  | none => none
  | some st =>
    chk (st.supply.symbol = symbol) <|
    match findAcct s.accounts owner symbol.code with
    | some _ => some s
    | none =>
      some { s with accounts := (owner, ⟨⟨0, symbol⟩, true, ram_payer⟩) :: s.accounts }

/-- `token::close` (src/src/token.cpp:213). -/
def close (env : Env) (owner : Name) (symbol : Symb) (s : State) : Option State :=
  chk (env.auth owner) <|
  match findAcct s.accounts owner symbol.code with
  | none => none
  | some it =>
    chk (it.balance.amount = 0) <|
    some { s with accounts := eraseAcct s.accounts owner symbol.code }

end token

namespace token2

/-! Actions of the second variant, `src/src/token/token.cpp`.  Its
`create`, `update`, `burn`, `transfer`, `claim`, `recover` and the
internal helpers are textual duplicates of the primary variant
(`eosio_assert` there and `check` here abort identically); `issue` lacks
the `to == issuer` check and instead sends an inline `transfer` to `to`
when `to` differs from the issuer; `open`/`close` do not exist. -/

/-- `token::create` (src/src/token/token.cpp:10). -/
def create (env : Env) (issuer : Name) (maximum_supply : Asset) (s : State) : Option State :=
  chk (env.auth env.self) <|
  chk maximum_supply.symbol.is_valid <|
  chk maximum_supply.is_valid <|
  chk (0 < maximum_supply.amount) <|
  match findStat s.stats maximum_supply.symbol.code with
  | some _ => none
  | none =>
    some { s with stats :=
      (maximum_supply.symbol.code,
        ⟨⟨0, maximum_supply.symbol⟩, maximum_supply, issuer⟩) :: s.stats }

/-- `token::update` (src/src/token/token.cpp:32). -/
def update (env : Env) (issuer : Name) (maximum_supply : Asset) (s : State) : Option State :=
  chk (env.auth env.self) <|
  chk maximum_supply.symbol.is_valid <|
  chk maximum_supply.is_valid <|
  chk (0 < maximum_supply.amount) <|
  match findStat s.stats maximum_supply.symbol.code with
  | none => none
  | some st =>
    chk (st.supply.amount ≤ maximum_supply.amount) <|
    chk (maximum_supply.symbol = st.supply.symbol) <|
    let stats1 := modifyStat s.stats maximum_supply.symbol.code
      (fun r => { r with max_supply := maximum_supply, issuer := issuer })
    some { s with stats := stats1 }

/-- `token::add_balance` (src/src/token/token.cpp:210). -/
def add_balance (owner : Name) (value : Asset) (ram_payer : Name) (claimed : Bool)
    (s : State) : Option State :=
  match findAcct s.accounts owner value.symbol.code with
  | none =>
    some { s with accounts := (owner, ⟨value, claimed, ram_payer⟩) :: s.accounts }
  | some to_row =>
    match Asset.add to_row.balance value with
    | none => none
    | some b =>
      let accounts1 := modifyAcct s.accounts owner value.symbol.code
        (fun a => { a with balance := b })
      some { s with accounts := accounts1 }

/-- `token::sub_balance` (src/src/token/token.cpp:194). -/
def sub_balance (owner : Name) (value : Asset) (s : State) : Option State :=
  match findAcct s.accounts owner value.symbol.code with
  | none => none
  | some from_row =>
    chk (value.amount ≤ from_row.balance.amount) <|
    if from_row.balance.amount = value.amount then
      some { s with accounts := eraseAcct s.accounts owner value.symbol.code }
    else
      match Asset.sub from_row.balance value with
      | none => none
      | some b =>
        let accounts1 := modifyAcct s.accounts owner value.symbol.code
          (fun a => { a with balance := b, payer := owner })
        some { s with accounts := accounts1 }

/-- `token::do_claim` (src/src/token/token.cpp:148). -/
def do_claim (env : Env) (owner : Name) (sym : Symb) (payer : Name) (s : State) :
    Option State :=
  chk sym.is_valid <|
  chk (env.auth payer) <|
  match findAcct s.accounts owner sym.code with
  | none => none
  | some existing =>
    if existing.claimed then some s
    else
      match findAcct (eraseAcct s.accounts owner sym.code) owner sym.code with
      | some _ => none
      | none =>
        some { s with accounts :=
          (owner, ⟨existing.balance, true, payer⟩) :: eraseAcct s.accounts owner sym.code }

/-- `token::claim` (src/src/token/token.cpp:144). -/
def claim (env : Env) (owner : Name) (sym : Symb) (s : State) : Option State :=
  do_claim env owner sym owner s

/-- `token::burn` (src/src/token/token.cpp:88). -/
def burn (env : Env) (frm : Name) (quantity : Asset) (s : State) : Option State :=
  chk quantity.symbol.is_valid <|
  match findStat s.stats quantity.symbol.code with
  | none => none
  | some st =>
    chk (env.auth st.issuer) <|
    chk quantity.is_valid <|
    chk (0 < quantity.amount) <|
    chk (quantity.symbol = st.supply.symbol) <|
    match Asset.sub st.supply quantity with
    | none => none
    | some supply1 =>
      let stats1 := modifyStat s.stats quantity.symbol.code
        (fun r => { r with supply := supply1 })
      sub_balance frm quantity { s with stats := stats1 }

/-- `token::transfer` (src/src/token/token.cpp:111). -/
def transfer (env : Env) (frm dst : Name) (quantity : Asset) (memo : String) (s : State) :
    Option State :=
  chk (frm ≠ dst) <|
  chk (env.auth frm) <|
  chk (env.isAccount dst) <|
  match findStat s.stats quantity.symbol.code with
  | none => none
  | some st =>
    chk quantity.is_valid <|
    chk (0 < quantity.amount) <|
    chk (quantity.symbol = st.supply.symbol) <|
    chk (memo.length ≤ 256) <|
    (do_claim env frm quantity.symbol frm s).bind fun s1 =>
    (sub_balance frm quantity s1).bind fun s2 =>
    (add_balance dst quantity frm (decide (frm ≠ st.issuer)) s2).bind fun s3 =>
    if frm ≠ st.issuer then do_claim env dst quantity.symbol frm s3 else some s3

/-- `token::recover` (src/src/token/token.cpp:173). -/
def recover (env : Env) (owner : Name) (sym : Symb) (s : State) : Option State :=
  match findStat s.stats sym.code with
  | none => none
  | some st =>
    chk (env.auth st.issuer) <|
    match findAcct s.accounts owner sym.code with
    | none => some s
    | some owned =>
      if owned.claimed then some s
      else
        (sub_balance owner owned.balance s).bind fun s1 =>
        add_balance st.issuer owned.balance st.issuer true s1

/-- `token::issue` (src/src/token/token.cpp:57): no `to == issuer`
precondition; the quantity is credited to the issuer and, when `to`
differs from the issuer, an inline `transfer` from the issuer to `to` is
dispatched (`SEND_INLINE_ACTION`), which runs in the same transaction and
aborts the whole transaction on failure. -/
def issue (env : Env) (dst : Name) (quantity : Asset) (memo : String) (s : State) :
    Option State :=
  chk quantity.symbol.is_valid <|
  chk (memo.length ≤ 256) <|
  match findStat s.stats quantity.symbol.code with
  | none => none
  | some st =>
    chk (env.auth st.issuer) <|
    chk quantity.is_valid <|
    chk (0 < quantity.amount) <|
    chk (quantity.symbol = st.supply.symbol) <|
    chk (quantity.amount ≤ st.max_supply.amount - st.supply.amount) <|
    match Asset.add st.supply quantity with
    | none => none
    | some supply1 =>
      let stats1 := modifyStat s.stats quantity.symbol.code
        (fun r => { r with supply := supply1 })
      (add_balance st.issuer quantity st.issuer true { s with stats := stats1 }).bind
        fun s1 => if dst ≠ st.issuer then transfer env st.issuer dst quantity memo s1 else some s1

end token2

/-- The ledger operations of the primary variant, as dispatched by
`EOSIO_DISPATCH(eosio::token,
(create)(update)(issue)(transfer)(claim)(recover)(burn)(open))` plus
`close`. -/
inductive Op where
  | create (issuer : Name) (maximum_supply : Asset)
  | update (issuer : Name) (maximum_supply : Asset)
  | issue (dst : Name) (quantity : Asset) (memo : String)
  | burn (frm : Name) (quantity : Asset)
  | transfer (frm dst : Name) (quantity : Asset) (memo : String)
  | claim (owner : Name) (sym : Symb)
  | recover (owner : Name) (sym : Symb)
  | open_ (owner : Name) (sym : Symb) (ram_payer : Name)
  | close (owner : Name) (sym : Symb)

/-- One action of the primary variant, run as a transaction: either the
whole action succeeds, or it aborts and the chain rolls it back. -/
def step (env : Env) (op : Op) (s : State) : Option State :=
  match op with
  | .create issuer maximum_supply => token.create env issuer maximum_supply s
  | .update issuer maximum_supply => token.update env issuer maximum_supply s
  | .issue dst quantity memo => token.issue env dst quantity memo s
  | .burn frm quantity => token.burn env frm quantity s
  | .transfer frm dst quantity memo => token.transfer env frm dst quantity memo s
  | .claim owner sym => token.claim env owner sym s
  | .recover owner sym => token.recover env owner sym s
  | .open_ owner sym ram_payer => token.open_ env owner sym ram_payer s
  | .close owner sym => token.close env owner sym s

/-- Run a sequence of actions, each under its own platform context;
any failing action aborts the whole run. -/
def applyOps : List (Env × Op) → State → Option State
  | [], s => some s
  | e :: l, s => (step e.1 e.2 s).bind (applyOps l)

/-- The committed ledger state after submitting one action: the action's
result when it succeeds, and — since the chain rolls back every aborted
action — the unchanged previous state when it fails. -/
def stepT (env : Env) (op : Op) (s : State) : State :=
  (step env op s).getD s

/-! Concrete fixtures used by witnesses and counterexamples: a permissive
platform context, the one-letter symbol `A` with precision 4, account
names 1 (issuer), 2 and 3, and a small populated ledger. -/

/-- A platform context that grants every authorization and where every
account exists; the contract runs as account 0. -/
def env0 : Env := { self := 0, auth := fun _ => true, isAccount := fun _ => true }

/-- The symbol with code `A` (byte 65) and precision 4. -/
def sym0 : Symb := ⟨65, 4⟩

/-- The empty memo. -/
def memo0 : String := ""

/-- Registry row: supply 100, max supply 1000, issuer 1. -/
def stTOK : CurrencyStats := ⟨⟨100, sym0⟩, ⟨1000, sym0⟩, 1⟩

/-- A ledger where symbol `A` has supply 100, all held by account 2 in a
claimed row billed to 2. -/
def sBase : State := ⟨[(65, stTOK)], [(2, ⟨⟨100, sym0⟩, true, 2⟩)]⟩

/-- A ledger like `sBase` but where account 2's row is unclaimed and
billed to the issuer 1. -/
def sUncl : State := ⟨[(65, stTOK)], [(2, ⟨⟨100, sym0⟩, false, 1⟩)]⟩

/-! ### Basic lemmas about the guard, asset arithmetic and the tables -/

theorem chk_eq_some {α : Type} {p : Prop} [Decidable p] {k : Option α} {x : α} :
    chk p k = some x ↔ p ∧ k = some x := by
  by_cases h : p <;> simp [chk, h]

theorem chk_bind {α β : Type} (p : Prop) [Decidable p] (k : Option α) (f : α → Option β) :
    (chk p k).bind f = chk p (k.bind f) := by
  by_cases h : p <;> simp [chk, h]

theorem Asset.add_eq_some {a b r : Asset} (h : Asset.add a b = some r) :
    r.amount = a.amount + b.amount ∧ r.symbol = a.symbol ∧ b.symbol = a.symbol := by
  simp only [Asset.add, chk_eq_some, Option.some.injEq] at h
  obtain ⟨hs, -, -, rfl⟩ := h
  exact ⟨rfl, rfl, hs⟩

theorem Asset.sub_eq_some {a b r : Asset} (h : Asset.sub a b = some r) :
    r.amount = a.amount - b.amount ∧ r.symbol = a.symbol ∧ b.symbol = a.symbol := by
  simp only [Asset.sub, chk_eq_some, Option.some.injEq] at h
  obtain ⟨hs, -, -, rfl⟩ := h
  exact ⟨rfl, rfl, hs⟩

theorem findStat_modify_self (l : List (Nat × CurrencyStats)) (c : Nat)
    (f : CurrencyStats → CurrencyStats) :
    findStat (modifyStat l c f) c = (findStat l c).map f := by
  induction l with
  | nil => rfl
  | cons e l ih =>
    by_cases h : e.1 = c <;> simp [modifyStat, findStat, h, ih]

theorem findStat_modify_ne (l : List (Nat × CurrencyStats)) {c c2 : Nat}
    (f : CurrencyStats → CurrencyStats) (h : c2 ≠ c) :
    findStat (modifyStat l c f) c2 = findStat l c2 := by
  induction l with
  | nil => rfl
  | cons e l ih =>
    by_cases he : e.1 = c
    · have hne : ¬(c = c2) := Ne.symm h
      simp [modifyStat, findStat, he, hne, ih]
    · simp [modifyStat, findStat, he, ih]

theorem findAcct_some_code {l : List (Name × AccountRow)} {o : Name} {c : Nat}
    {row : AccountRow} (h : findAcct l o c = some row) :
    row.balance.symbol.code = c := by
  induction l with
  | nil => simp [findAcct] at h
  | cons e l ih =>
    by_cases he : e.1 = o ∧ e.2.balance.symbol.code = c
    · simp only [findAcct, if_pos he, Option.some.injEq] at h
      exact h ▸ he.2
    · simp only [findAcct, if_neg he] at h
      exact ih h

theorem findAcct_eq_none_iff {l : List (Name × AccountRow)} {o : Name} {c : Nat} :
    findAcct l o c = none ↔ ∀ e ∈ l, ¬(e.1 = o ∧ e.2.balance.symbol.code = c) := by
  induction l with
  | nil => simp [findAcct]
  | cons e l ih =>
    constructor
    · intro h e2 he2 hk
      by_cases hke : e.1 = o ∧ e.2.balance.symbol.code = c
      · simp only [findAcct, if_pos hke] at h
        exact Option.noConfusion h
      · simp only [findAcct, if_neg hke] at h
        rcases List.mem_cons.mp he2 with rfl | hmem
        · exact hke hk
        · exact (ih.mp h) e2 hmem hk
    · intro h
      have hke := h e (List.mem_cons_self e l)
      simp only [findAcct, if_neg hke]
      exact ih.mpr fun e2 he2 => h e2 (List.mem_cons_of_mem e he2)

theorem eraseAcct_sublist (l : List (Name × AccountRow)) (o : Name) (c : Nat) :
    List.Sublist (eraseAcct l o c) l := by
  induction l with
  | nil => simp [eraseAcct]
  | cons e l ih =>
    by_cases he : e.1 = o ∧ e.2.balance.symbol.code = c
    · simp only [eraseAcct, if_pos he]
      exact (List.Sublist.refl l).cons e
    · simpa [eraseAcct, he] using ih.cons₂ e

theorem acctND_erase {l : List (Name × AccountRow)} (o : Name) (c : Nat)
    (h : acctND l) : acctND (eraseAcct l o c) :=
  List.Nodup.sublist (List.Sublist.map _ (eraseAcct_sublist l o c)) h

theorem findAcct_erase_ne {l : List (Name × AccountRow)} {o o2 : Name} {c c2 : Nat}
    (h : ¬(o2 = o ∧ c2 = c)) :
    findAcct (eraseAcct l o c) o2 c2 = findAcct l o2 c2 := by
  induction l with
  | nil => rfl
  | cons e l ih =>
    by_cases he : e.1 = o ∧ e.2.balance.symbol.code = c
    · have hne : ¬(e.1 = o2 ∧ e.2.balance.symbol.code = c2) := by
        rintro ⟨h1, h2⟩
        exact h ⟨h1 ▸ he.1, h2 ▸ he.2⟩
      simp only [eraseAcct, if_pos he, findAcct, if_neg hne]
    · simp only [eraseAcct, if_neg he, findAcct, ih]

theorem findAcct_erase_self {l : List (Name × AccountRow)} {o : Name} {c : Nat}
    (hnd : acctND l) : findAcct (eraseAcct l o c) o c = none := by
  induction l with
  | nil => rfl
  | cons e l ih =>
    simp only [acctND, List.map_cons, List.nodup_cons] at hnd
    by_cases he : e.1 = o ∧ e.2.balance.symbol.code = c
    · simp only [eraseAcct, if_pos he]
      rw [findAcct_eq_none_iff]
      intro e2 he2 hk
      exact hnd.1 (List.mem_map.mpr ⟨e2, he2, by simp [hk.1, hk.2, he.1, he.2]⟩)
    · simp only [eraseAcct, if_neg he, findAcct, if_neg he]
      exact ih hnd.2

theorem acctND_cons {l : List (Name × AccountRow)} {o : Name} {row : AccountRow}
    (hnone : findAcct l o row.balance.symbol.code = none) (hnd : acctND l) :
    acctND ((o, row) :: l) := by
  simp only [acctND, List.map_cons, List.nodup_cons]
  refine ⟨?_, hnd⟩
  rw [findAcct_eq_none_iff] at hnone
  intro hmem
  obtain ⟨e, hel, hk⟩ := List.mem_map.mp hmem
  exact hnone e hel ⟨congrArg Prod.fst hk, congrArg Prod.snd hk⟩

theorem modifyAcct_of_none {l : List (Name × AccountRow)} {o : Name} {c : Nat}
    (f : AccountRow → AccountRow) (h : findAcct l o c = none) :
    modifyAcct l o c f = l := by
  induction l with
  | nil => rfl
  | cons e l ih =>
    rw [findAcct_eq_none_iff] at h
    have he := h e (List.mem_cons_self e l)
    have ht : findAcct l o c = none := by
      rw [findAcct_eq_none_iff]
      exact fun e2 he2 => h e2 (List.mem_cons_of_mem e he2)
    simp only [modifyAcct, if_neg he, ih ht]

theorem findAcct_modify_self {l : List (Name × AccountRow)} {o : Name} {c : Nat}
    {f : AccountRow → AccountRow}
    (hf : ∀ e ∈ l, e.1 = o → e.2.balance.symbol.code = c →
      (f e.2).balance.symbol.code = c) :
    findAcct (modifyAcct l o c f) o c = (findAcct l o c).map f := by
  induction l with
  | nil => rfl
  | cons e l ih =>
    by_cases he : e.1 = o ∧ e.2.balance.symbol.code = c
    · have hk : (e.1, f e.2).1 = o ∧ (e.1, f e.2).2.balance.symbol.code = c :=
        ⟨he.1, hf e (List.mem_cons_self e l) he.1 he.2⟩
      simp only [modifyAcct, if_pos he, findAcct, if_pos hk, if_pos he]
      rfl
    · simp only [modifyAcct, if_neg he, findAcct, if_neg he]
      exact ih fun e2 he2 => hf e2 (List.mem_cons_of_mem e he2)

theorem findAcct_modify_ne {l : List (Name × AccountRow)} {o o2 : Name} {c c2 : Nat}
    {f : AccountRow → AccountRow} (h : ¬(o2 = o ∧ c2 = c))
    (hf : ∀ e ∈ l, e.1 = o → e.2.balance.symbol.code = c →
      (f e.2).balance.symbol.code = c) :
    findAcct (modifyAcct l o c f) o2 c2 = findAcct l o2 c2 := by
  induction l with
  | nil => rfl
  | cons e l ih =>
    have ihl := ih fun e2 he2 => hf e2 (List.mem_cons_of_mem e he2)
    by_cases he : e.1 = o ∧ e.2.balance.symbol.code = c
    · have hk : (f e.2).balance.symbol.code = c :=
        hf e (List.mem_cons_self e l) he.1 he.2
      have hne : ¬((e.1, f e.2).1 = o2 ∧ (e.1, f e.2).2.balance.symbol.code = c2) := by
        rintro ⟨h1, h2⟩
        exact h ⟨h1 ▸ he.1, h2 ▸ hk⟩
      have hne2 : ¬(e.1 = o2 ∧ e.2.balance.symbol.code = c2) := by
        rintro ⟨h1, h2⟩
        exact h ⟨h1 ▸ he.1, h2 ▸ he.2⟩
      simp only [modifyAcct, if_pos he, findAcct, if_neg hne, if_neg hne2, ihl]
    · simp only [modifyAcct, if_neg he, findAcct, ihl]

theorem acctND_modify {l : List (Name × AccountRow)} {o : Name} {c : Nat}
    {f : AccountRow → AccountRow}
    (hf : ∀ e ∈ l, e.1 = o → e.2.balance.symbol.code = c →
      (f e.2).balance.symbol.code = c)
    (hnd : acctND l) : acctND (modifyAcct l o c f) := by
  have hkeys : (modifyAcct l o c f).map (fun e => (e.1, e.2.balance.symbol.code)) =
      l.map (fun e => (e.1, e.2.balance.symbol.code)) := by
    induction l with
    | nil => rfl
    | cons e l ih =>
      have hnd2 : acctND l := by
        simp only [acctND, List.map_cons, List.nodup_cons] at hnd
        exact hnd.2
      have ihl := ih (fun e2 he2 => hf e2 (List.mem_cons_of_mem e he2)) hnd2
      by_cases he : e.1 = o ∧ e.2.balance.symbol.code = c
      · have hk : (f e.2).balance.symbol.code = c :=
          hf e (List.mem_cons_self e l) he.1 he.2
        simp only [modifyAcct, if_pos he, List.map_cons, ihl]
        simp [hk, he.2]
      · simp only [modifyAcct, if_neg he, List.map_cons, ihl]
  unfold acctND
  rw [hkeys]
  exact hnd

theorem sumBal_cons (c : Nat) (e : Name × AccountRow) (l : List (Name × AccountRow)) :
    sumBal c (e :: l) =
      (if e.2.balance.symbol.code = c then e.2.balance.amount else 0) + sumBal c l := rfl

theorem sumBal_erase {l : List (Name × AccountRow)} {o : Name} {c0 : Nat}
    {row : AccountRow} (h : findAcct l o c0 = some row) (c : Nat) :
    sumBal c (eraseAcct l o c0) =
      sumBal c l - (if c0 = c then row.balance.amount else 0) := by
  induction l with
  | nil => simp [findAcct] at h
  | cons e l ih =>
    by_cases he : e.1 = o ∧ e.2.balance.symbol.code = c0
    · simp only [findAcct, if_pos he, Option.some.injEq] at h
      subst h
      simp only [eraseAcct, if_pos he, sumBal_cons]
      rw [he.2]
      by_cases hc : c0 = c <;> simp [hc]
    · simp only [findAcct, if_neg he] at h
      simp only [eraseAcct, if_neg he, sumBal_cons, ih h]
      omega

theorem sumBal_modify {l : List (Name × AccountRow)} {o : Name} {c0 : Nat}
    {row : AccountRow} {f : AccountRow → AccountRow}
    (hf : ∀ e ∈ l, e.1 = o → e.2.balance.symbol.code = c0 →
      (f e.2).balance.symbol.code = c0)
    (hnd : acctND l) (h : findAcct l o c0 = some row) (c : Nat) :
    sumBal c (modifyAcct l o c0 f) =
      sumBal c l - (if c0 = c then row.balance.amount else 0)
        + (if c0 = c then (f row).balance.amount else 0) := by
  induction l with
  | nil => simp [findAcct] at h
  | cons e l ih =>
    have hnd2 : acctND l := by
      simp only [acctND, List.map_cons, List.nodup_cons] at hnd
      exact hnd.2
    by_cases he : e.1 = o ∧ e.2.balance.symbol.code = c0
    · simp only [findAcct, if_pos he, Option.some.injEq] at h
      subst h
      have hnone : findAcct l o c0 = none := by
        simp only [acctND, List.map_cons, List.nodup_cons] at hnd
        rw [findAcct_eq_none_iff]
        intro e2 he2 hk
        exact hnd.1 (List.mem_map.mpr ⟨e2, he2, by simp [hk.1, hk.2, he.1, he.2]⟩)
      have hk : (f e.2).balance.symbol.code = c0 :=
        hf e (List.mem_cons_self e l) he.1 he.2
      simp only [modifyAcct, if_pos he, sumBal_cons, modifyAcct_of_none f hnone]
      by_cases hc : c0 = c
      · simp [hc, hk, he.2]
        omega
      · simp [hc, hk, he.2]
    · simp only [findAcct, if_neg he] at h
      have ihl := ih (fun e2 he2 => hf e2 (List.mem_cons_of_mem e he2)) hnd2 h
      simp only [modifyAcct, if_neg he, sumBal_cons, ihl]
      omega

/-! ### Characterization of the internal helpers of the primary variant -/

theorem token.do_claim_elim {env : Env} {owner : Name} {sym : Symb} {payer : Name}
    {s s2 : State} (h : token.do_claim env owner sym payer s = some s2) :
    sym.is_valid = true ∧ env.auth payer = true ∧
    ∃ row, findAcct s.accounts owner sym.code = some row ∧
      ((row.claimed = true ∧ s2 = s) ∨
       (row.claimed = false ∧
        findAcct (eraseAcct s.accounts owner sym.code) owner sym.code = none ∧
        s2 = { s with accounts :=
          (owner, ⟨row.balance, true, payer⟩) :: eraseAcct s.accounts owner sym.code })) := by
  simp only [token.do_claim, chk_eq_some] at h
  obtain ⟨hv, ha, h⟩ := h
  refine ⟨hv, ha, ?_⟩
  split at h
  · exact Option.noConfusion h
  · rename_i row hfind
    refine ⟨row, hfind, ?_⟩
    split at h
    · rename_i hc
      injection h with h
      exact Or.inl ⟨hc, h.symm⟩
    · rename_i hc
      split at h
      · exact Option.noConfusion h
      · rename_i hrep
        injection h with h
        exact Or.inr ⟨Bool.eq_false_iff.mpr hc, hrep, h.symm⟩

theorem token.do_claim_stats {env : Env} {owner : Name} {sym : Symb} {payer : Name}
    {s s2 : State} (h : token.do_claim env owner sym payer s = some s2) :
    s2.stats = s.stats := by
  obtain ⟨-, -, row, -, hcase⟩ := token.do_claim_elim h
  rcases hcase with ⟨-, rfl⟩ | ⟨-, -, rfl⟩ <;> rfl

theorem token.do_claim_nd {env : Env} {owner : Name} {sym : Symb} {payer : Name}
    {s s2 : State} (hnd : acctND s.accounts)
    (h : token.do_claim env owner sym payer s = some s2) : acctND s2.accounts := by
  obtain ⟨-, -, row, hfind, hcase⟩ := token.do_claim_elim h
  rcases hcase with ⟨-, rfl⟩ | ⟨-, hrep, rfl⟩
  · exact hnd
  · have hcode : row.balance.symbol.code = sym.code := findAcct_some_code hfind
    exact acctND_cons (by rw [show (⟨row.balance, true, payer⟩ : AccountRow).balance = row.balance from rfl, hcode]; exact hrep)
      (acctND_erase owner sym.code hnd)

theorem token.do_claim_sum {env : Env} {owner : Name} {sym : Symb} {payer : Name}
    {s s2 : State} (h : token.do_claim env owner sym payer s = some s2) (c : Nat) :
    sumBal c s2.accounts = sumBal c s.accounts := by
  obtain ⟨-, -, row, hfind, hcase⟩ := token.do_claim_elim h
  rcases hcase with ⟨-, rfl⟩ | ⟨-, -, rfl⟩
  · rfl
  · have hcode : row.balance.symbol.code = sym.code := findAcct_some_code hfind
    show (if (⟨row.balance, true, payer⟩ : AccountRow).balance.symbol.code = c then
        row.balance.amount else 0) + sumBal c (eraseAcct s.accounts owner sym.code)
      = sumBal c s.accounts
    rw [sumBal_erase hfind c]
    by_cases hc : sym.code = c
    · simp only [show (⟨row.balance, true, payer⟩ : AccountRow).balance = row.balance from rfl,
        hcode, hc, if_pos rfl]
      omega
    · rw [if_neg hc, if_neg (by rw [show (⟨row.balance, true, payer⟩ : AccountRow).balance = row.balance from rfl, hcode]; exact hc)]
      omega

theorem token.do_claim_find_other {env : Env} {owner : Name} {sym : Symb} {payer : Name}
    {s s2 : State} {o2 : Name} {c2 : Nat}
    (h : token.do_claim env owner sym payer s = some s2)
    (hne : ¬(o2 = owner ∧ c2 = sym.code)) :
    findAcct s2.accounts o2 c2 = findAcct s.accounts o2 c2 := by
  obtain ⟨-, -, row, hfind, hcase⟩ := token.do_claim_elim h
  rcases hcase with ⟨-, rfl⟩ | ⟨-, -, rfl⟩
  · rfl
  · have hcode : row.balance.symbol.code = sym.code := findAcct_some_code hfind
    have hhead : ¬((owner, (⟨row.balance, true, payer⟩ : AccountRow)).1 = o2 ∧
        (owner, (⟨row.balance, true, payer⟩ : AccountRow)).2.balance.symbol.code = c2) := by
      rintro ⟨h1, h2⟩
      exact hne ⟨h1.symm, h2.symm.trans hcode⟩
    show findAcct ((owner, ⟨row.balance, true, payer⟩) :: eraseAcct s.accounts owner sym.code) o2 c2 = _
    rw [findAcct, if_neg hhead]
    exact findAcct_erase_ne hne

theorem token.do_claim_find_self {env : Env} {owner : Name} {sym : Symb} {payer : Name}
    {s s2 : State} (h : token.do_claim env owner sym payer s = some s2) :
    ∃ row, findAcct s.accounts owner sym.code = some row ∧
      ((row.claimed = true ∧ findAcct s2.accounts owner sym.code = some row) ∨
       (row.claimed = false ∧
        findAcct s2.accounts owner sym.code = some ⟨row.balance, true, payer⟩)) := by
  obtain ⟨-, -, row, hfind, hcase⟩ := token.do_claim_elim h
  have hcode : row.balance.symbol.code = sym.code := findAcct_some_code hfind
  refine ⟨row, hfind, ?_⟩
  rcases hcase with ⟨hc, rfl⟩ | ⟨hc, -, rfl⟩
  · exact Or.inl ⟨hc, hfind⟩
  · refine Or.inr ⟨hc, ?_⟩
    show findAcct ((owner, ⟨row.balance, true, payer⟩) :: eraseAcct s.accounts owner sym.code) owner sym.code = _
    rw [findAcct, if_pos ⟨rfl, hcode⟩]

theorem token.sub_balance_elim {owner : Name} {value : Asset} {s s2 : State}
    (h : token.sub_balance owner value s = some s2) :
    ∃ row, findAcct s.accounts owner value.symbol.code = some row ∧
      value.amount ≤ row.balance.amount ∧
      ((row.balance.amount = value.amount ∧
        s2 = { s with accounts := eraseAcct s.accounts owner value.symbol.code }) ∨
       (value.amount < row.balance.amount ∧
        ∃ b, Asset.sub row.balance value = some b ∧
          s2 = { s with accounts := modifyAcct s.accounts owner value.symbol.code (fun a => { a with balance := b, payer := owner }) })) := by
  simp only [token.sub_balance] at h
  split at h
  · exact Option.noConfusion h
  · rename_i row hfind
    simp only [chk_eq_some] at h
    obtain ⟨hle, h⟩ := h
    refine ⟨row, hfind, hle, ?_⟩
    split at h
    · rename_i heq
      injection h with h
      exact Or.inl ⟨heq, h.symm⟩
    · rename_i hne
      split at h
      · exact Option.noConfusion h
      · rename_i b hsub
        injection h with h
        exact Or.inr ⟨lt_of_le_of_ne hle (fun hx => hne hx.symm), b, hsub, h.symm⟩

theorem token.sub_balance_stats {owner : Name} {value : Asset} {s s2 : State}
    (h : token.sub_balance owner value s = some s2) : s2.stats = s.stats := by
  obtain ⟨row, -, -, hcase⟩ := token.sub_balance_elim h
  rcases hcase with ⟨-, rfl⟩ | ⟨-, b, -, rfl⟩ <;> rfl

theorem token.sub_balance_nd {owner : Name} {value : Asset} {s s2 : State}
    (hnd : acctND s.accounts) (h : token.sub_balance owner value s = some s2) :
    acctND s2.accounts := by
  obtain ⟨row, hfind, -, hcase⟩ := token.sub_balance_elim h
  rcases hcase with ⟨-, rfl⟩ | ⟨-, b, hsub, rfl⟩
  · exact acctND_erase owner value.symbol.code hnd
  · have hb : b.symbol = row.balance.symbol := (Asset.sub_eq_some hsub).2.1
    have hcode : row.balance.symbol.code = value.symbol.code := findAcct_some_code hfind
    have hf : ∀ e ∈ s.accounts, e.1 = owner →
        e.2.balance.symbol.code = value.symbol.code →
        ((fun a : AccountRow => { a with balance := b, payer := owner }) e.2).balance.symbol.code = value.symbol.code := by
      intro e he h1 h2
      show b.symbol.code = value.symbol.code
      rw [hb, hcode]
    exact acctND_modify hf hnd

theorem token.sub_balance_sum {owner : Name} {value : Asset} {s s2 : State}
    (hnd : acctND s.accounts) (h : token.sub_balance owner value s = some s2) (c : Nat) :
    sumBal c s2.accounts =
      sumBal c s.accounts - (if value.symbol.code = c then value.amount else 0) := by
  obtain ⟨row, hfind, -, hcase⟩ := token.sub_balance_elim h
  rcases hcase with ⟨heq, rfl⟩ | ⟨-, b, hsub, rfl⟩
  · show sumBal c (eraseAcct s.accounts owner value.symbol.code) = _
    rw [sumBal_erase hfind c, heq]
  · have hb : b.symbol = row.balance.symbol := (Asset.sub_eq_some hsub).2.1
    have hba : b.amount = row.balance.amount - value.amount := (Asset.sub_eq_some hsub).1
    have hcode : row.balance.symbol.code = value.symbol.code := findAcct_some_code hfind
    have hf : ∀ e ∈ s.accounts, e.1 = owner →
        e.2.balance.symbol.code = value.symbol.code →
        ((fun a : AccountRow => { a with balance := b, payer := owner }) e.2).balance.symbol.code = value.symbol.code := by
      intro e he h1 h2
      show b.symbol.code = value.symbol.code
      rw [hb, hcode]
    show sumBal c (modifyAcct s.accounts owner value.symbol.code (fun a : AccountRow => { a with balance := b, payer := owner })) = _
    rw [sumBal_modify hf hnd hfind c]
    by_cases hc : value.symbol.code = c
    · simp [hc]
      omega
    · simp [hc]

theorem token.sub_balance_find_other {owner : Name} {value : Asset} {s s2 : State}
    {o2 : Name} {c2 : Nat} (h : token.sub_balance owner value s = some s2)
    (hne : ¬(o2 = owner ∧ c2 = value.symbol.code)) :
    findAcct s2.accounts o2 c2 = findAcct s.accounts o2 c2 := by
  obtain ⟨row, hfind, -, hcase⟩ := token.sub_balance_elim h
  rcases hcase with ⟨-, rfl⟩ | ⟨-, b, hsub, rfl⟩
  · exact findAcct_erase_ne hne
  · have hb : b.symbol = row.balance.symbol := (Asset.sub_eq_some hsub).2.1
    have hcode : row.balance.symbol.code = value.symbol.code := findAcct_some_code hfind
    have hf : ∀ e ∈ s.accounts, e.1 = owner →
        e.2.balance.symbol.code = value.symbol.code →
        ((fun a : AccountRow => { a with balance := b, payer := owner }) e.2).balance.symbol.code = value.symbol.code := by
      intro e he h1 h2
      show b.symbol.code = value.symbol.code
      rw [hb, hcode]
    exact findAcct_modify_ne hne hf

theorem token.add_balance_elim {owner : Name} {value : Asset} {ram_payer : Name}
    {claimed : Bool} {s s2 : State}
    (h : token.add_balance owner value ram_payer claimed s = some s2) :
    (findAcct s.accounts owner value.symbol.code = none ∧
      s2 = { s with accounts := (owner, ⟨value, claimed, ram_payer⟩) :: s.accounts }) ∨
    (∃ row b, findAcct s.accounts owner value.symbol.code = some row ∧
      Asset.add row.balance value = some b ∧
      s2 = { s with accounts := modifyAcct s.accounts owner value.symbol.code (fun a => { a with balance := b }) }) := by
  simp only [token.add_balance] at h
  split at h
  · rename_i hfind
    injection h with h
    exact Or.inl ⟨hfind, h.symm⟩
  · rename_i row hfind
    split at h
    · exact Option.noConfusion h
    · rename_i b hadd
      injection h with h
      exact Or.inr ⟨row, b, hfind, hadd, h.symm⟩

theorem token.add_balance_stats {owner : Name} {value : Asset} {ram_payer : Name}
    {claimed : Bool} {s s2 : State}
    (h : token.add_balance owner value ram_payer claimed s = some s2) :
    s2.stats = s.stats := by
  rcases token.add_balance_elim h with ⟨-, rfl⟩ | ⟨row, b, -, -, rfl⟩ <;> rfl

theorem token.add_balance_nd {owner : Name} {value : Asset} {ram_payer : Name}
    {claimed : Bool} {s s2 : State} (hnd : acctND s.accounts)
    (h : token.add_balance owner value ram_payer claimed s = some s2) :
    acctND s2.accounts := by
  rcases token.add_balance_elim h with ⟨hfind, rfl⟩ | ⟨row, b, hfind, hadd, rfl⟩
  · exact acctND_cons hfind hnd
  · have hb : b.symbol = row.balance.symbol := (Asset.add_eq_some hadd).2.1
    have hcode : row.balance.symbol.code = value.symbol.code := findAcct_some_code hfind
    have hf : ∀ e ∈ s.accounts, e.1 = owner →
        e.2.balance.symbol.code = value.symbol.code →
        ((fun a : AccountRow => { a with balance := b }) e.2).balance.symbol.code = value.symbol.code := by
      intro e he h1 h2
      show b.symbol.code = value.symbol.code
      rw [hb, hcode]
    exact acctND_modify hf hnd

theorem token.add_balance_sum {owner : Name} {value : Asset} {ram_payer : Name}
    {claimed : Bool} {s s2 : State} (hnd : acctND s.accounts)
    (h : token.add_balance owner value ram_payer claimed s = some s2) (c : Nat) :
    sumBal c s2.accounts =
      sumBal c s.accounts + (if value.symbol.code = c then value.amount else 0) := by
  rcases token.add_balance_elim h with ⟨hfind, rfl⟩ | ⟨row, b, hfind, hadd, rfl⟩
  · show (if value.symbol.code = c then value.amount else 0) + sumBal c s.accounts = _
    omega
  · have hb : b.symbol = row.balance.symbol := (Asset.add_eq_some hadd).2.1
    have hba : b.amount = row.balance.amount + value.amount := (Asset.add_eq_some hadd).1
    have hcode : row.balance.symbol.code = value.symbol.code := findAcct_some_code hfind
    have hf : ∀ e ∈ s.accounts, e.1 = owner →
        e.2.balance.symbol.code = value.symbol.code →
        ((fun a : AccountRow => { a with balance := b }) e.2).balance.symbol.code = value.symbol.code := by
      intro e he h1 h2
      show b.symbol.code = value.symbol.code
      rw [hb, hcode]
    show sumBal c (modifyAcct s.accounts owner value.symbol.code (fun a : AccountRow => { a with balance := b })) = _
    rw [sumBal_modify hf hnd hfind c]
    by_cases hc : value.symbol.code = c
    · simp [hc]
      omega
    · simp [hc]

theorem token.add_balance_find_other {owner : Name} {value : Asset} {ram_payer : Name}
    {claimed : Bool} {s s2 : State} {o2 : Name} {c2 : Nat}
    (h : token.add_balance owner value ram_payer claimed s = some s2)
    (hne : ¬(o2 = owner ∧ c2 = value.symbol.code)) :
    findAcct s2.accounts o2 c2 = findAcct s.accounts o2 c2 := by
  rcases token.add_balance_elim h with ⟨hfind, rfl⟩ | ⟨row, b, hfind, hadd, rfl⟩
  · have hhead : ¬((owner, (⟨value, claimed, ram_payer⟩ : AccountRow)).1 = o2 ∧
        (owner, (⟨value, claimed, ram_payer⟩ : AccountRow)).2.balance.symbol.code = c2) := by
      rintro ⟨h1, h2⟩
      exact hne ⟨h1.symm, h2.symm⟩
    show findAcct ((owner, ⟨value, claimed, ram_payer⟩) :: s.accounts) o2 c2 = _
    rw [findAcct, if_neg hhead]
  · have hb : b.symbol = row.balance.symbol := (Asset.add_eq_some hadd).2.1
    have hcode : row.balance.symbol.code = value.symbol.code := findAcct_some_code hfind
    have hf : ∀ e ∈ s.accounts, e.1 = owner →
        e.2.balance.symbol.code = value.symbol.code →
        ((fun a : AccountRow => { a with balance := b }) e.2).balance.symbol.code = value.symbol.code := by
      intro e he h1 h2
      show b.symbol.code = value.symbol.code
      rw [hb, hcode]
    exact findAcct_modify_ne hne hf

theorem token.add_balance_find_self {owner : Name} {value : Asset} {ram_payer : Name}
    {claimed : Bool} {s s2 : State}
    (h : token.add_balance owner value ram_payer claimed s = some s2) :
    (findAcct s.accounts owner value.symbol.code = none ∧
      findAcct s2.accounts owner value.symbol.code = some ⟨value, claimed, ram_payer⟩) ∨
    (∃ row b, findAcct s.accounts owner value.symbol.code = some row ∧
      Asset.add row.balance value = some b ∧
      findAcct s2.accounts owner value.symbol.code = some ⟨b, row.claimed, row.payer⟩) := by
  rcases token.add_balance_elim h with ⟨hfind, rfl⟩ | ⟨row, b, hfind, hadd, rfl⟩
  · refine Or.inl ⟨hfind, ?_⟩
    show findAcct ((owner, ⟨value, claimed, ram_payer⟩) :: s.accounts) owner value.symbol.code = _
    rw [findAcct, if_pos ⟨rfl, rfl⟩]
  · have hb : b.symbol = row.balance.symbol := (Asset.add_eq_some hadd).2.1
    have hcode : row.balance.symbol.code = value.symbol.code := findAcct_some_code hfind
    have hf : ∀ e ∈ s.accounts, e.1 = owner →
        e.2.balance.symbol.code = value.symbol.code →
        ((fun a : AccountRow => { a with balance := b }) e.2).balance.symbol.code = value.symbol.code := by
      intro e he h1 h2
      show b.symbol.code = value.symbol.code
      rw [hb, hcode]
    refine Or.inr ⟨row, b, hfind, hadd, ?_⟩
    show findAcct (modifyAcct s.accounts owner value.symbol.code (fun a : AccountRow => { a with balance := b })) owner value.symbol.code = _
    rw [findAcct_modify_self hf, hfind]
    rfl

/-! ### Characterization of the dispatched actions of the primary variant -/

theorem token.create_elim {env : Env} {issuer : Name} {ms : Asset} {s s2 : State}
    (h : token.create env issuer ms s = some s2) :
    env.auth env.self = true ∧ ms.symbol.is_valid = true ∧ ms.is_valid = true ∧
    0 < ms.amount ∧ findStat s.stats ms.symbol.code = none ∧
    s2 = { s with stats := (ms.symbol.code, ⟨⟨0, ms.symbol⟩, ms, issuer⟩) :: s.stats } := by
  simp only [token.create, chk_eq_some] at h
  obtain ⟨h1, h2, h3, h4, h⟩ := h
  split at h
  · exact Option.noConfusion h
  · rename_i hfind
    injection h with h
    exact ⟨h1, h2, h3, h4, hfind, h.symm⟩

theorem token.update_elim {env : Env} {issuer : Name} {ms : Asset} {s s2 : State}
    (h : token.update env issuer ms s = some s2) :
    env.auth env.self = true ∧ ms.symbol.is_valid = true ∧ ms.is_valid = true ∧
    0 < ms.amount ∧
    ∃ st, findStat s.stats ms.symbol.code = some st ∧
      st.supply.amount ≤ ms.amount ∧ ms.symbol = st.supply.symbol ∧
      s2 = { s with stats := modifyStat s.stats ms.symbol.code (fun r => { r with max_supply := ms, issuer := issuer }) } := by
  simp only [token.update, chk_eq_some] at h
  obtain ⟨h1, h2, h3, h4, h⟩ := h
  split at h
  · exact Option.noConfusion h
  · rename_i st hfind
    simp only [chk_eq_some] at h
    obtain ⟨h5, h6, h⟩ := h
    injection h with h
    exact ⟨h1, h2, h3, h4, st, hfind, h5, h6, h.symm⟩

theorem token.issue_elim {env : Env} {dst : Name} {quantity : Asset} {memo : String}
    {s s2 : State} (h : token.issue env dst quantity memo s = some s2) :
    quantity.symbol.is_valid = true ∧ memo.length ≤ 256 ∧
    ∃ st supply1, findStat s.stats quantity.symbol.code = some st ∧
      dst = st.issuer ∧ env.auth st.issuer = true ∧ quantity.is_valid = true ∧
      0 < quantity.amount ∧ quantity.symbol = st.supply.symbol ∧
      quantity.amount ≤ st.max_supply.amount - st.supply.amount ∧
      Asset.add st.supply quantity = some supply1 ∧
      token.add_balance st.issuer quantity st.issuer true
        { s with stats := modifyStat s.stats quantity.symbol.code (fun r => { r with supply := supply1 }) } = some s2 := by
  simp only [token.issue, chk_eq_some] at h
  obtain ⟨h1, h2, h⟩ := h
  split at h
  · exact Option.noConfusion h
  · rename_i st hfind
    simp only [chk_eq_some] at h
    obtain ⟨h3, h4, h5, h6, h7, h8, h⟩ := h
    split at h
    · exact Option.noConfusion h
    · rename_i supply1 hadd
      exact ⟨h1, h2, st, supply1, hfind, h3, h4, h5, h6, h7, h8, hadd, h⟩

theorem token.burn_elim {env : Env} {frm : Name} {quantity : Asset} {s s2 : State}
    (h : token.burn env frm quantity s = some s2) :
    quantity.symbol.is_valid = true ∧
    ∃ st supply1, findStat s.stats quantity.symbol.code = some st ∧
      env.auth st.issuer = true ∧ quantity.is_valid = true ∧ 0 < quantity.amount ∧
      quantity.symbol = st.supply.symbol ∧
      Asset.sub st.supply quantity = some supply1 ∧
      token.sub_balance frm quantity
        { s with stats := modifyStat s.stats quantity.symbol.code (fun r => { r with supply := supply1 }) } = some s2 := by
  simp only [token.burn, chk_eq_some] at h
  obtain ⟨h1, h⟩ := h
  split at h
  · exact Option.noConfusion h
  · rename_i st hfind
    simp only [chk_eq_some] at h
    obtain ⟨h2, h3, h4, h5, h⟩ := h
    split at h
    · exact Option.noConfusion h
    · rename_i supply1 hsub
      exact ⟨h1, st, supply1, hfind, h2, h3, h4, h5, hsub, h⟩

theorem token.transfer_elim {env : Env} {frm dst : Name} {quantity : Asset}
    {memo : String} {s sfin : State}
    (h : token.transfer env frm dst quantity memo s = some sfin) :
    frm ≠ dst ∧ env.auth frm = true ∧ env.isAccount dst = true ∧
    ∃ st, findStat s.stats quantity.symbol.code = some st ∧
      quantity.is_valid = true ∧ 0 < quantity.amount ∧
      quantity.symbol = st.supply.symbol ∧ memo.length ≤ 256 ∧
      ∃ s1 s2 s3, token.do_claim env frm quantity.symbol frm s = some s1 ∧
        token.sub_balance frm quantity s1 = some s2 ∧
        token.add_balance dst quantity frm (decide (frm ≠ st.issuer)) s2 = some s3 ∧
        ((frm ≠ st.issuer ∧ token.do_claim env dst quantity.symbol frm s3 = some sfin) ∨
         (frm = st.issuer ∧ sfin = s3)) := by
  simp only [token.transfer, chk_eq_some] at h
  obtain ⟨h1, h2, h3, h⟩ := h
  split at h
  · exact Option.noConfusion h
  · rename_i st hfind
    simp only [chk_eq_some, Option.bind_eq_some] at h
    obtain ⟨h4, h5, h6, h7, s1, hs1, s2, hs2, s3, hs3, h⟩ := h
    refine ⟨h1, h2, h3, st, hfind, h4, h5, h6, h7, s1, s2, s3, hs1, hs2, hs3, ?_⟩
    by_cases hiss : frm = st.issuer
    · rw [if_neg (by simp [hiss])] at h
      injection h with h
      exact Or.inr ⟨hiss, h.symm⟩
    · rw [if_pos hiss] at h
      exact Or.inl ⟨hiss, h⟩

theorem token.recover_elim {env : Env} {owner : Name} {sym : Symb} {s s2 : State}
    (h : token.recover env owner sym s = some s2) :
    ∃ st, findStat s.stats sym.code = some st ∧ env.auth st.issuer = true ∧
      ((findAcct s.accounts owner sym.code = none ∧ s2 = s) ∨
       (∃ owned, findAcct s.accounts owner sym.code = some owned ∧
         ((owned.claimed = true ∧ s2 = s) ∨
          (owned.claimed = false ∧
           ∃ s1, token.sub_balance owner owned.balance s = some s1 ∧
             token.add_balance st.issuer owned.balance st.issuer true s1 = some s2)))) := by
  simp only [token.recover] at h
  split at h
  · exact Option.noConfusion h
  · rename_i st hfind
    simp only [chk_eq_some] at h
    obtain ⟨h1, h⟩ := h
    refine ⟨st, hfind, h1, ?_⟩
    split at h
    · rename_i hnone
      injection h with h
      exact Or.inl ⟨hnone, h.symm⟩
    · rename_i owned howned
      refine Or.inr ⟨owned, howned, ?_⟩
      split at h
      · rename_i hc
        injection h with h
        exact Or.inl ⟨hc, h.symm⟩
      · rename_i hc
        simp only [Option.bind_eq_some] at h
        obtain ⟨s1, hs1, hs2⟩ := h
        exact Or.inr ⟨Bool.eq_false_iff.mpr hc, s1, hs1, hs2⟩

theorem token.open_elim {env : Env} {owner : Name} {symbol : Symb} {ram_payer : Name}
    {s s2 : State} (h : token.open_ env owner symbol ram_payer s = some s2) :
    env.auth ram_payer = true ∧ env.isAccount owner = true ∧
    ∃ st, findStat s.stats symbol.code = some st ∧ st.supply.symbol = symbol ∧
      ((∃ row, findAcct s.accounts owner symbol.code = some row ∧ s2 = s) ∨
       (findAcct s.accounts owner symbol.code = none ∧
        s2 = { s with accounts := (owner, ⟨⟨0, symbol⟩, true, ram_payer⟩) :: s.accounts })) := by
  simp only [token.open_, chk_eq_some] at h
  obtain ⟨h1, h2, h⟩ := h
  split at h
  · exact Option.noConfusion h
  · rename_i st hfind
    simp only [chk_eq_some] at h
    obtain ⟨h3, h⟩ := h
    refine ⟨h1, h2, st, hfind, h3, ?_⟩
    split at h
    · rename_i row hrow
      injection h with h
      exact Or.inl ⟨row, hrow, h.symm⟩
    · rename_i hnone
      injection h with h
      exact Or.inr ⟨hnone, h.symm⟩

theorem token.close_elim {env : Env} {owner : Name} {symbol : Symb} {s s2 : State}
    (h : token.close env owner symbol s = some s2) :
    env.auth owner = true ∧
    ∃ row, findAcct s.accounts owner symbol.code = some row ∧
      row.balance.amount = 0 ∧
      s2 = { s with accounts := eraseAcct s.accounts owner symbol.code } := by
  simp only [token.close, chk_eq_some] at h
  obtain ⟨h1, h⟩ := h
  split at h
  · exact Option.noConfusion h
  · rename_i row hrow
    simp only [chk_eq_some] at h
    obtain ⟨h2, h⟩ := h
    injection h with h
    exact ⟨h1, row, hrow, h2, h.symm⟩

theorem supplyAt_cons (c0 : Nat) (st : CurrencyStats) (stats : List (Nat × CurrencyStats))
    (c : Nat) :
    supplyAt ((c0, st) :: stats) c =
      if c0 = c then st.supply.amount else supplyAt stats c := by
  by_cases hc : c0 = c <;> simp [supplyAt, findStat, hc]

theorem supplyAt_modify_ne {stats : List (Nat × CurrencyStats)} {c0 c : Nat}
    (f : CurrencyStats → CurrencyStats) (h : c ≠ c0) :
    supplyAt (modifyStat stats c0 f) c = supplyAt stats c := by
  simp [supplyAt, findStat_modify_ne stats f h]

theorem supplyAt_modify_self {stats : List (Nat × CurrencyStats)} {c0 : Nat}
    {st : CurrencyStats} (f : CurrencyStats → CurrencyStats)
    (h : findStat stats c0 = some st) :
    supplyAt (modifyStat stats c0 f) c0 = (f st).supply.amount := by
  simp [supplyAt, findStat_modify_self, h]

/-! ### Preservation of the conservation invariant -/

theorem token.create_inv {env : Env} {issuer : Name} {ms : Asset} {s s2 : State}
    (hInv : ConsInv s) (h : token.create env issuer ms s = some s2) : ConsInv s2 := by
  obtain ⟨-, -, -, -, hnone, rfl⟩ := token.create_elim h
  refine ⟨hInv.1, fun c => ?_⟩
  show sumBal c s.accounts = supplyAt ((ms.symbol.code, ⟨⟨0, ms.symbol⟩, ms, issuer⟩) :: s.stats) c
  rw [supplyAt_cons]
  by_cases hc : ms.symbol.code = c
  · rw [if_pos hc]
    have h0 : supplyAt s.stats c = 0 := by
      rw [supplyAt, ← hc, hnone]
      rfl
    rw [hInv.2 c, h0]
  · rw [if_neg hc]
    exact hInv.2 c

theorem token.update_inv {env : Env} {issuer : Name} {ms : Asset} {s s2 : State}
    (hInv : ConsInv s) (h : token.update env issuer ms s = some s2) : ConsInv s2 := by
  obtain ⟨-, -, -, -, st, hfind, -, -, rfl⟩ := token.update_elim h
  refine ⟨hInv.1, fun c => ?_⟩
  show sumBal c s.accounts = supplyAt (modifyStat s.stats ms.symbol.code _) c
  by_cases hc : c = ms.symbol.code
  · subst hc
    rw [supplyAt_modify_self _ hfind]
    have hst : supplyAt s.stats ms.symbol.code = st.supply.amount := by simp [supplyAt, hfind]
    rw [hInv.2 ms.symbol.code, hst]
  · rw [supplyAt_modify_ne _ hc]
    exact hInv.2 c

theorem token.issue_inv {env : Env} {dst : Name} {quantity : Asset} {memo : String}
    {s s2 : State} (hInv : ConsInv s) (h : token.issue env dst quantity memo s = some s2) :
    ConsInv s2 := by
  obtain ⟨-, -, st, supply1, hfind, -, -, -, -, -, -, hadd, hab⟩ := token.issue_elim h
  set sMid : State := { s with stats := modifyStat s.stats quantity.symbol.code (fun r => { r with supply := supply1 }) } with hsMid
  have hndM : acctND sMid.accounts := hInv.1
  refine ⟨token.add_balance_nd hndM hab, fun c => ?_⟩
  have hsum := token.add_balance_sum hndM hab c
  have hacc : sumBal c sMid.accounts = sumBal c s.accounts := rfl
  have hstats2 : s2.stats = sMid.stats := token.add_balance_stats hab
  have hsts : supplyAt sMid.stats c = supplyAt (modifyStat s.stats quantity.symbol.code (fun r => { r with supply := supply1 })) c := rfl
  rw [hsum, hacc, hstats2, hsts]
  by_cases hc : c = quantity.symbol.code
  · subst hc
    rw [supplyAt_modify_self _ hfind]
    have h1 : supply1.amount = st.supply.amount + quantity.amount := (Asset.add_eq_some hadd).1
    have hst : supplyAt s.stats quantity.symbol.code = st.supply.amount := by simp [supplyAt, hfind]
    have hs := hInv.2 quantity.symbol.code
    rw [hst] at hs
    show sumBal quantity.symbol.code s.accounts + (if quantity.symbol.code = quantity.symbol.code then quantity.amount else 0) = supply1.amount
    rw [if_pos rfl, hs, h1]
  · rw [supplyAt_modify_ne _ hc, if_neg (fun hx => hc hx.symm)]
    have hs := hInv.2 c
    omega

theorem token.burn_inv {env : Env} {frm : Name} {quantity : Asset} {s s2 : State}
    (hInv : ConsInv s) (h : token.burn env frm quantity s = some s2) : ConsInv s2 := by
  obtain ⟨-, st, supply1, hfind, -, -, -, -, hsub, hsb⟩ := token.burn_elim h
  set sMid : State := { s with stats := modifyStat s.stats quantity.symbol.code (fun r => { r with supply := supply1 }) } with hsMid
  have hndM : acctND sMid.accounts := hInv.1
  refine ⟨token.sub_balance_nd hndM hsb, fun c => ?_⟩
  have hsum := token.sub_balance_sum hndM hsb c
  have hacc : sumBal c sMid.accounts = sumBal c s.accounts := rfl
  have hstats2 : s2.stats = sMid.stats := token.sub_balance_stats hsb
  have hsts : supplyAt sMid.stats c = supplyAt (modifyStat s.stats quantity.symbol.code (fun r => { r with supply := supply1 })) c := rfl
  rw [hsum, hacc, hstats2, hsts]
  by_cases hc : c = quantity.symbol.code
  · subst hc
    rw [supplyAt_modify_self _ hfind]
    have h1 : supply1.amount = st.supply.amount - quantity.amount := (Asset.sub_eq_some hsub).1
    have hst : supplyAt s.stats quantity.symbol.code = st.supply.amount := by simp [supplyAt, hfind]
    have hs := hInv.2 quantity.symbol.code
    rw [hst] at hs
    show sumBal quantity.symbol.code s.accounts - (if quantity.symbol.code = quantity.symbol.code then quantity.amount else 0) = supply1.amount
    rw [if_pos rfl, hs, h1]
  · rw [supplyAt_modify_ne _ hc, if_neg (fun hx => hc hx.symm)]
    have hs := hInv.2 c
    omega

theorem token.transfer_inv {env : Env} {frm dst : Name} {quantity : Asset}
    {memo : String} {s sfin : State} (hInv : ConsInv s)
    (h : token.transfer env frm dst quantity memo s = some sfin) : ConsInv sfin := by
  obtain ⟨-, -, -, st, -, -, -, -, -, s1, s2, s3, hs1, hs2, hs3, hlast⟩ :=
    token.transfer_elim h
  have hnd1 := token.do_claim_nd hInv.1 hs1
  have hnd2 := token.sub_balance_nd hnd1 hs2
  have hnd3 := token.add_balance_nd hnd2 hs3
  have hst1 := token.do_claim_stats hs1
  have hst2 := token.sub_balance_stats hs2
  have hst3 := token.add_balance_stats hs3
  have hndf : acctND sfin.accounts := by
    rcases hlast with ⟨-, hdc⟩ | ⟨-, rfl⟩
    · exact token.do_claim_nd hnd3 hdc
    · exact hnd3
  have hstf : sfin.stats = s.stats := by
    rcases hlast with ⟨-, hdc⟩ | ⟨-, rfl⟩
    · rw [token.do_claim_stats hdc, hst3, hst2, hst1]
    · rw [hst3, hst2, hst1]
  refine ⟨hndf, fun c => ?_⟩
  have hsum1 := token.do_claim_sum hs1 c
  have hsum2 := token.sub_balance_sum hnd1 hs2 c
  have hsum3 := token.add_balance_sum hnd2 hs3 c
  have hsumf : sumBal c sfin.accounts = sumBal c s3.accounts := by
    rcases hlast with ⟨-, hdc⟩ | ⟨-, rfl⟩
    · exact token.do_claim_sum hdc c
    · rfl
  rw [hsumf, hsum3, hsum2, hsum1, hstf]
  have hs := hInv.2 c
  omega

theorem token.claim_inv {env : Env} {owner : Name} {sym : Symb} {s s2 : State}
    (hInv : ConsInv s) (h : token.claim env owner sym s = some s2) : ConsInv s2 := by
  refine ⟨token.do_claim_nd hInv.1 h, fun c => ?_⟩
  rw [token.do_claim_sum h c, token.do_claim_stats h]
  exact hInv.2 c

theorem token.recover_inv {env : Env} {owner : Name} {sym : Symb} {s s2 : State}
    (hInv : ConsInv s) (h : token.recover env owner sym s = some s2) : ConsInv s2 := by
  obtain ⟨st, hfind, -, hcase⟩ := token.recover_elim h
  rcases hcase with ⟨-, rfl⟩ | ⟨owned, howned, hcase⟩
  · exact hInv
  rcases hcase with ⟨-, rfl⟩ | ⟨-, s1, hsb, hab⟩
  · exact hInv
  have hnd1 := token.sub_balance_nd hInv.1 hsb
  refine ⟨token.add_balance_nd hnd1 hab, fun c => ?_⟩
  have hsum1 := token.sub_balance_sum hInv.1 hsb c
  have hsum2 := token.add_balance_sum hnd1 hab c
  have hstats : s2.stats = s.stats := by
    rw [token.add_balance_stats hab, token.sub_balance_stats hsb]
  rw [hsum2, hsum1, hstats]
  have hs := hInv.2 c
  omega

theorem token.open_inv {env : Env} {owner : Name} {symbol : Symb} {ram_payer : Name}
    {s s2 : State} (hInv : ConsInv s)
    (h : token.open_ env owner symbol ram_payer s = some s2) : ConsInv s2 := by
  obtain ⟨-, -, st, -, -, hcase⟩ := token.open_elim h
  rcases hcase with ⟨row, -, rfl⟩ | ⟨hnone, rfl⟩
  · exact hInv
  refine ⟨acctND_cons hnone hInv.1, fun c => ?_⟩
  show sumBal c ((owner, ⟨⟨0, symbol⟩, true, ram_payer⟩) :: s.accounts) = supplyAt s.stats c
  rw [sumBal_cons]
  have hz : (if ((⟨⟨0, symbol⟩, true, ram_payer⟩ : AccountRow)).balance.symbol.code = c then ((⟨⟨0, symbol⟩, true, ram_payer⟩ : AccountRow)).balance.amount else 0) = (0 : Int) := by
    split <;> rfl
  rw [hz, zero_add]
  exact hInv.2 c

theorem token.close_inv {env : Env} {owner : Name} {symbol : Symb} {s s2 : State}
    (hInv : ConsInv s) (h : token.close env owner symbol s = some s2) : ConsInv s2 := by
  obtain ⟨-, row, hrow, hzero, rfl⟩ := token.close_elim h
  refine ⟨acctND_erase owner symbol.code hInv.1, fun c => ?_⟩
  show sumBal c (eraseAcct s.accounts owner symbol.code) = supplyAt s.stats c
  rw [sumBal_erase hrow c, hzero]
  have hs := hInv.2 c
  have hz : (if symbol.code = c then (0 : Int) else 0) = 0 := by split <;> rfl
  rw [hz]
  omega

/-- Every action of the primary variant preserves key uniqueness and the
conservation of supply. -/
theorem step_inv {env : Env} {op : Op} {s s2 : State}
    (hInv : ConsInv s) (h : step env op s = some s2) : ConsInv s2 := by
  cases op with
  | create issuer ms => exact token.create_inv hInv h
  | update issuer ms => exact token.update_inv hInv h
  | issue dst q memo => exact token.issue_inv hInv h
  | burn frm q => exact token.burn_inv hInv h
  | transfer frm dst q memo => exact token.transfer_inv hInv h
  | claim owner sym => exact token.claim_inv hInv h
  | recover owner sym => exact token.recover_inv hInv h
  | open_ owner sym ram_payer => exact token.open_inv hInv h
  | close owner sym => exact token.close_inv hInv h

theorem applyOps_inv {l : List (Env × Op)} {s s2 : State}
    (hInv : ConsInv s) (h : applyOps l s = some s2) : ConsInv s2 := by
  induction l generalizing s with
  | nil =>
    injection h with h
    exact h ▸ hInv
  | cons e l ih =>
    simp only [applyOps, Option.bind_eq_some] at h
    obtain ⟨s1, hs1, hrest⟩ := h
    exact ih (step_inv hInv hs1) hrest

theorem ConsInv_empty : ConsInv State.empty :=
  ⟨List.nodup_nil, fun _ => rfl⟩

/-! ### The claims -/

/-- Claim C1: for every symbol and every sequence of successful actions
(create, update, issue, burn, transfer, claim, recover, open, close)
starting from the empty ledger, the sum of the balance amounts of all
balance records for that symbol's code equals that symbol's registry
supply amount in the resulting state. -/
theorem claim_C1 (l : List (Env × Op)) (s : State)
    (h : applyOps l State.empty = some s) (c : Nat) (st : CurrencyStats)
    (hfind : findStat s.stats c = some st) :
    sumBal c s.accounts = st.supply.amount := by
  have hInv := applyOps_inv ConsInv_empty h
  rw [hInv.2 c]
  simp [supplyAt, hfind]

theorem claim_C1_witness :
    sumBal 65 (⟨[(65, stTOK)], [(1, ⟨⟨100, sym0⟩, true, 1⟩)]⟩ : State).accounts =
      stTOK.supply.amount :=
  claim_C1 [(env0, Op.create 1 ⟨1000, sym0⟩), (env0, Op.issue 1 ⟨100, sym0⟩ memo0)]
    ⟨[(65, stTOK)], [(1, ⟨⟨100, sym0⟩, true, 1⟩)]⟩ (by decide) 65 stTOK (by decide)

/-- Claim C4: a failing action leaves the committed ledger state
unchanged (the chain rolls the whole transaction back, so the committed
semantics `stepT` returns the previous state), and in particular a debit
that would drive a balance negative fails. -/
theorem claim_C4 :
    (∀ (env : Env) (op : Op) (s : State), step env op s = none → stepT env op s = s) ∧
    (∀ (owner : Name) (value : Asset) (s : State) (row : AccountRow),
      findAcct s.accounts owner value.symbol.code = some row →
      row.balance.amount < value.amount → token.sub_balance owner value s = none) := by
  constructor
  · intro env op s h
    simp [stepT, h]
  · intro owner value s row hfind hlt
    have hn : ¬(value.amount ≤ row.balance.amount) := not_le.mpr hlt
    simp [token.sub_balance, hfind, chk, hn]

theorem claim_C4_witness :
    stepT env0 (Op.burn 3 ⟨60, sym0⟩) sBase = sBase ∧
    token.sub_balance 2 ⟨200, sym0⟩ sBase = none :=
  ⟨claim_C4.1 env0 (Op.burn 3 ⟨60, sym0⟩) sBase (by decide),
   claim_C4.2 2 ⟨200, sym0⟩ sBase ⟨⟨100, sym0⟩, true, 2⟩ (by decide) (by decide)⟩

/-- Claim C7: for a registry entry with `0 ≤ supply ≤ max_supply`, a
successful issue adds the quantity to the supply and keeps it at or below
`max_supply`, and an issue of more than `max_supply - supply` fails. -/
theorem claim_C7 (env : Env) (dst : Name) (quantity : Asset) (memo : String)
    (s : State) (st : CurrencyStats)
    (hfind : findStat s.stats quantity.symbol.code = some st)
    (hge : 0 ≤ st.supply.amount) (hle : st.supply.amount ≤ st.max_supply.amount) :
    (∀ s2, token.issue env dst quantity memo s = some s2 →
      ∃ st2, findStat s2.stats quantity.symbol.code = some st2 ∧
        st2.supply.amount = st.supply.amount + quantity.amount ∧
        st2.max_supply = st.max_supply ∧
        st2.supply.amount ≤ st2.max_supply.amount) ∧
    (st.max_supply.amount - st.supply.amount < quantity.amount →
      token.issue env dst quantity memo s = none) := by
  constructor
  · intro s2 h
    obtain ⟨-, -, st', supply1, hfind', -, -, -, -, -, hceil, hadd, hab⟩ :=
      token.issue_elim h
    rw [hfind] at hfind'
    injection hfind' with he
    subst he
    have h2 : s2.stats = modifyStat s.stats quantity.symbol.code
        (fun r => { r with supply := supply1 }) := token.add_balance_stats hab
    have h1 : supply1.amount = st.supply.amount + quantity.amount :=
      (Asset.add_eq_some hadd).1
    refine ⟨{ st with supply := supply1 }, ?_, h1, rfl, ?_⟩
    · rw [h2, findStat_modify_self, hfind]
      rfl
    · show supply1.amount ≤ st.max_supply.amount
      omega
  · intro hgt
    cases h : token.issue env dst quantity memo s with
    | none => rfl
    | some s2 =>
      obtain ⟨-, -, st', supply1, hfind', -, -, -, -, -, hceil, -, -⟩ :=
        token.issue_elim h
      rw [hfind] at hfind'
      injection hfind' with he
      subst he
      omega

theorem claim_C7_witness :
    token.issue env0 1 ⟨950, sym0⟩ memo0 sBase = none :=
  (claim_C7 env0 1 ⟨950, sym0⟩ memo0 sBase stTOK (by decide) (by decide)
    (by decide)).2 (by decide)

/-- Claim C9: claim, recover, open and close never touch the Symbol
Registry — every successful run leaves the whole `stat` table (supply,
max supply, issuer of every symbol) unchanged. -/
theorem claim_C9 :
    (∀ (env : Env) (owner : Name) (sym : Symb) (s s2 : State),
      token.claim env owner sym s = some s2 → s2.stats = s.stats) ∧
    (∀ (env : Env) (owner : Name) (sym : Symb) (s s2 : State),
      token.recover env owner sym s = some s2 → s2.stats = s.stats) ∧
    (∀ (env : Env) (owner : Name) (sym : Symb) (ram_payer : Name) (s s2 : State),
      token.open_ env owner sym ram_payer s = some s2 → s2.stats = s.stats) ∧
    (∀ (env : Env) (owner : Name) (sym : Symb) (s s2 : State),
      token.close env owner sym s = some s2 → s2.stats = s.stats) := by
  refine ⟨?_, ?_, ?_, ?_⟩
  · intro env owner sym s s2 h
    exact token.do_claim_stats h
  · intro env owner sym s s2 h
    obtain ⟨st, -, -, hcase⟩ := token.recover_elim h
    rcases hcase with ⟨-, rfl⟩ | ⟨owned, -, hcase⟩
    · rfl
    rcases hcase with ⟨-, rfl⟩ | ⟨-, s1, hsb, hab⟩
    · rfl
    rw [token.add_balance_stats hab, token.sub_balance_stats hsb]
  · intro env owner sym ram_payer s s2 h
    obtain ⟨-, -, st, -, -, hcase⟩ := token.open_elim h
    rcases hcase with ⟨row, -, rfl⟩ | ⟨-, rfl⟩ <;> rfl
  · intro env owner sym s s2 h
    obtain ⟨-, row, -, -, rfl⟩ := token.close_elim h
    rfl

theorem claim_C9_witness :
    (⟨[(65, stTOK)], [(2, ⟨⟨100, sym0⟩, true, 2⟩)]⟩ : State).stats = sUncl.stats :=
  claim_C9.1 env0 2 sym0 sUncl ⟨[(65, stTOK)], [(2, ⟨⟨100, sym0⟩, true, 2⟩)]⟩ (by decide)

/-- Claim C8: claiming an existing, already claimed record succeeds and
leaves the state unchanged, and a second claim right after any successful
claim also leaves the state unchanged (one claim and two claims yield the
same state). -/
theorem claim_C8 :
    (∀ (env : Env) (owner : Name) (sym : Symb) (s : State) (row : AccountRow),
      sym.is_valid = true → env.auth owner = true →
      findAcct s.accounts owner sym.code = some row → row.claimed = true →
      token.claim env owner sym s = some s) ∧
    (∀ (env : Env) (owner : Name) (sym : Symb) (s s2 : State),
      token.claim env owner sym s = some s2 →
      token.claim env owner sym s2 = some s2) := by
  constructor
  · intro env owner sym s row hv ha hfind hc
    simp only [token.claim, token.do_claim, hfind, hc]
    simp [chk, hv, ha]
  · intro env owner sym s s2 h
    obtain ⟨hv, ha, row, hfind, hcase⟩ := token.do_claim_elim h
    have hcode := findAcct_some_code hfind
    rcases hcase with ⟨hc, rfl⟩ | ⟨hc, hrep, rfl⟩
    · exact h
    · have hhead : findAcct ((owner, (⟨row.balance, true, owner⟩ : AccountRow)) ::
          eraseAcct s.accounts owner sym.code) owner sym.code =
          some ⟨row.balance, true, owner⟩ := by
        rw [findAcct, if_pos ⟨rfl, hcode⟩]
      simp only [token.claim, token.do_claim, hhead]
      simp [chk, hv, ha]

theorem claim_C8_witness :
    token.claim env0 2 sym0 sBase = some sBase ∧
    token.claim env0 2 sym0 (⟨[(65, stTOK)], [(2, ⟨⟨100, sym0⟩, true, 2⟩)]⟩ : State) =
      some ⟨[(65, stTOK)], [(2, ⟨⟨100, sym0⟩, true, 2⟩)]⟩ :=
  ⟨claim_C8.1 env0 2 sym0 sBase ⟨⟨100, sym0⟩, true, 2⟩ (by decide) (by decide)
    (by decide) (by decide),
   claim_C8.2 env0 2 sym0 sUncl ⟨[(65, stTOK)], [(2, ⟨⟨100, sym0⟩, true, 2⟩)]⟩ (by decide)⟩

/-- Claim C5, counterexample: after `update` reassigns the issuer, the
claim's unclaimed branch fails on reachable states.  First run (create,
issue, transfer 1→2, update issuer to 2): account 2 — now the issuer —
holds an unclaimed row, and `recover(2, A)` re-creates 2's row (claimed,
billed to 2) instead of erasing it.  Second run (create, issue, transfer
1→2, transfer 1→3, update issuer to 2): `recover(3, A)` moves 3's
unclaimed balance onto issuer 2's existing row, which keeps
`claimed = false` — the balance is not added to a claimed record. -/
theorem claim_C5_counterexample :
    applyOps [(env0, Op.create 1 ⟨1000, sym0⟩), (env0, Op.issue 1 ⟨100, sym0⟩ memo0),
        (env0, Op.transfer 1 2 ⟨40, sym0⟩ memo0), (env0, Op.update 2 ⟨1000, sym0⟩)]
      State.empty =
      some ⟨[(65, ⟨⟨100, sym0⟩, ⟨1000, sym0⟩, 2⟩)],
        [(2, ⟨⟨40, sym0⟩, false, 1⟩), (1, ⟨⟨60, sym0⟩, true, 1⟩)]⟩ ∧
    token.recover env0 2 sym0
        ⟨[(65, ⟨⟨100, sym0⟩, ⟨1000, sym0⟩, 2⟩)],
          [(2, ⟨⟨40, sym0⟩, false, 1⟩), (1, ⟨⟨60, sym0⟩, true, 1⟩)]⟩ =
      some ⟨[(65, ⟨⟨100, sym0⟩, ⟨1000, sym0⟩, 2⟩)],
        [(2, ⟨⟨40, sym0⟩, true, 2⟩), (1, ⟨⟨60, sym0⟩, true, 1⟩)]⟩ ∧
    (findAcct [(2, (⟨⟨40, sym0⟩, true, 2⟩ : AccountRow)), (1, ⟨⟨60, sym0⟩, true, 1⟩)]
      2 65 ≠ none) ∧
    applyOps [(env0, Op.create 1 ⟨1000, sym0⟩), (env0, Op.issue 1 ⟨100, sym0⟩ memo0),
        (env0, Op.transfer 1 2 ⟨60, sym0⟩ memo0), (env0, Op.transfer 1 3 ⟨40, sym0⟩ memo0),
        (env0, Op.update 2 ⟨1000, sym0⟩)] State.empty =
      some ⟨[(65, ⟨⟨100, sym0⟩, ⟨1000, sym0⟩, 2⟩)],
        [(3, ⟨⟨40, sym0⟩, false, 1⟩), (2, ⟨⟨60, sym0⟩, false, 1⟩)]⟩ ∧
    token.recover env0 3 sym0
        ⟨[(65, ⟨⟨100, sym0⟩, ⟨1000, sym0⟩, 2⟩)],
          [(3, ⟨⟨40, sym0⟩, false, 1⟩), (2, ⟨⟨60, sym0⟩, false, 1⟩)]⟩ =
      some ⟨[(65, ⟨⟨100, sym0⟩, ⟨1000, sym0⟩, 2⟩)], [(2, ⟨⟨100, sym0⟩, false, 1⟩)]⟩ ∧
    ((findAcct [(2, (⟨⟨100, sym0⟩, false, 1⟩ : AccountRow))] 2 65).map
      AccountRow.claimed = some false) := by
  decide

/-- Claim C5 (amended): under the issuer's authority and an existing
registry entry, recover is a silent no-op when the owner has no record or
an already claimed one.  When the owner's record is unclaimed, a
successful recover moves its full balance to the issuer's record via the
normal debit path: for an owner other than the issuer, the owner's record
is erased and the balance is added to the issuer's record — created
claimed and issuer-billed when absent, added in place with its existing
flag and payer kept when present; when the owner is the issuer itself,
the record is re-created claimed and issuer-billed rather than erased. -/
theorem claim_C5 (env : Env) (owner : Name) (sym : Symb) (s : State)
    (st : CurrencyStats) (hnd : acctND s.accounts)
    (hfind : findStat s.stats sym.code = some st)
    (hauth : env.auth st.issuer = true) :
    (findAcct s.accounts owner sym.code = none →
      token.recover env owner sym s = some s) ∧
    (∀ row, findAcct s.accounts owner sym.code = some row → row.claimed = true →
      token.recover env owner sym s = some s) ∧
    (∀ row s2, findAcct s.accounts owner sym.code = some row → row.claimed = false →
      owner ≠ st.issuer → token.recover env owner sym s = some s2 →
      findAcct s2.accounts owner sym.code = none ∧
      (findAcct s.accounts st.issuer sym.code = none →
        findAcct s2.accounts st.issuer sym.code = some ⟨row.balance, true, st.issuer⟩) ∧
      (∀ irow, findAcct s.accounts st.issuer sym.code = some irow →
        ∃ b, Asset.add irow.balance row.balance = some b ∧
          findAcct s2.accounts st.issuer sym.code = some ⟨b, irow.claimed, irow.payer⟩)) ∧
    (∀ row s2, findAcct s.accounts owner sym.code = some row → row.claimed = false →
      owner = st.issuer → token.recover env owner sym s = some s2 →
      findAcct s2.accounts owner sym.code = some ⟨row.balance, true, st.issuer⟩) := by
  refine ⟨?_, ?_, ?_, ?_⟩
  · intro hnone
    simp [token.recover, hfind, chk, hauth, hnone]
  · intro row hrow hc
    simp [token.recover, hfind, chk, hauth, hrow, hc]
  · intro row s2 hrow hc hown h
    obtain ⟨st', hfind', -, hcase⟩ := token.recover_elim h
    rw [hfind] at hfind'
    injection hfind' with he
    subst he
    have hcode : row.balance.symbol.code = sym.code := findAcct_some_code hrow
    rcases hcase with ⟨hnone, rfl⟩ | ⟨owned, howned, hcase⟩
    · rw [hrow] at hnone
      exact Option.noConfusion hnone
    rw [hrow] at howned
    injection howned with he
    subst he
    rcases hcase with ⟨hc2, rfl⟩ | ⟨-, s1, hsb, hab⟩
    · rw [hc] at hc2
      exact Bool.noConfusion hc2
    obtain ⟨row', hrow', -, hsubcase⟩ := token.sub_balance_elim hsb
    rw [hcode, hrow] at hrow'
    injection hrow' with he
    subst he
    have hs1 : s1 = { s with accounts := eraseAcct s.accounts owner row.balance.symbol.code } := by
      rcases hsubcase with ⟨-, rfl⟩ | ⟨hlt, -, -, -⟩
      · rfl
      · exact absurd hlt (lt_irrefl _)
    subst hs1
    have hero : findAcct (eraseAcct s.accounts owner row.balance.symbol.code) owner
        row.balance.symbol.code = none := findAcct_erase_self hnd
    have heri : findAcct (eraseAcct s.accounts owner row.balance.symbol.code)
        st.issuer row.balance.symbol.code =
        findAcct s.accounts st.issuer row.balance.symbol.code :=
      findAcct_erase_ne (fun hx => hown hx.1.symm)
    have hother : findAcct s2.accounts owner row.balance.symbol.code =
        findAcct (eraseAcct s.accounts owner row.balance.symbol.code) owner
          row.balance.symbol.code := by
      apply token.add_balance_find_other hab
      rintro ⟨h1, -⟩
      exact hown h1
    refine ⟨?_, ?_, ?_⟩
    · rw [← hcode, hother, hero]
    · intro hinone
      rw [← hcode] at hinone ⊢
      rcases token.add_balance_find_self hab with ⟨-, hfound⟩ | ⟨irow', b, hi', -, -⟩
      · exact hfound
      · have hi2 : findAcct (eraseAcct s.accounts owner row.balance.symbol.code)
            st.issuer row.balance.symbol.code = some irow' := hi'
        rw [heri, hinone] at hi2
        exact Option.noConfusion hi2
    · intro irow hi
      rw [← hcode] at hi ⊢
      rcases token.add_balance_find_self hab with ⟨hinone, -⟩ | ⟨irow', b, hi', hadd, hfound⟩
      · have hi2 : findAcct (eraseAcct s.accounts owner row.balance.symbol.code)
            st.issuer row.balance.symbol.code = none := hinone
        rw [heri, hi] at hi2
        exact Option.noConfusion hi2
      · have hi2 : findAcct (eraseAcct s.accounts owner row.balance.symbol.code)
            st.issuer row.balance.symbol.code = some irow' := hi'
        rw [heri, hi] at hi2
        injection hi2 with he
        subst he
        exact ⟨b, hadd, hfound⟩
  · intro row s2 hrow hc hown h
    obtain ⟨st', hfind', -, hcase⟩ := token.recover_elim h
    rw [hfind] at hfind'
    injection hfind' with he
    subst he
    have hcode : row.balance.symbol.code = sym.code := findAcct_some_code hrow
    rcases hcase with ⟨hnone, rfl⟩ | ⟨owned, howned, hcase⟩
    · rw [hrow] at hnone
      exact Option.noConfusion hnone
    rw [hrow] at howned
    injection howned with he
    subst he
    rcases hcase with ⟨hc2, rfl⟩ | ⟨-, s1, hsb, hab⟩
    · rw [hc] at hc2
      exact Bool.noConfusion hc2
    obtain ⟨row', hrow', -, hsubcase⟩ := token.sub_balance_elim hsb
    rw [hcode, hrow] at hrow'
    injection hrow' with he
    subst he
    have hs1 : s1 = { s with accounts := eraseAcct s.accounts owner row.balance.symbol.code } := by
      rcases hsubcase with ⟨-, rfl⟩ | ⟨hlt, -, -, -⟩
      · rfl
      · exact absurd hlt (lt_irrefl _)
    subst hs1
    rcases token.add_balance_find_self hab with ⟨-, hfound⟩ | ⟨irow', b, hi', -, -⟩
    · rw [← hcode, hown]
      exact hfound
    · have hi2 : findAcct (eraseAcct s.accounts owner row.balance.symbol.code)
          st.issuer row.balance.symbol.code = some irow' := hi'
      rw [← hown, findAcct_erase_self hnd] at hi2
      exact Option.noConfusion hi2

theorem claim_C5_witness :
    token.recover env0 2 sym0 sBase = some sBase :=
  (claim_C5 env0 2 sym0 sBase stTOK (by decide) (by decide) (by decide)).2.1
    ⟨⟨100, sym0⟩, true, 2⟩ (by decide) (by decide)

/-- Claim C6, counterexample: a partial debit does not keep the storage
payer.  Account 2's row is billed to account 1 before the debit; after
`sub_balance 2 40` the row's payer is 2 (the owner), not 1: the in-place
update names the owner as the row's new payer. -/
theorem claim_C6_counterexample :
    token.sub_balance 2 ⟨40, sym0⟩ sUncl =
      some ⟨[(65, stTOK)], [(2, ⟨⟨60, sym0⟩, false, 2⟩)]⟩ ∧
    (findAcct sUncl.accounts 2 65).map AccountRow.payer = some 1 ∧
    ((findAcct (⟨[(65, stTOK)], [(2, ⟨⟨60, sym0⟩, false, 2⟩)]⟩ : State).accounts
        2 65).map AccountRow.payer ≠ some 1) := by
  decide

/-- Claim C6 (amended): the internal debit fails when the owner has no
record for the value's symbol code or when the record's balance is
smaller than the value; when the amounts are exactly equal, the record is
erased; otherwise the value is subtracted in place, the claimed flag is
unchanged, and the row is re-billed to the owner (the in-place update
passes the owner as the new storage payer). -/
theorem claim_C6_amended (owner : Name) (value : Asset) (s : State) :
    (findAcct s.accounts owner value.symbol.code = none →
      token.sub_balance owner value s = none) ∧
    (∀ row, findAcct s.accounts owner value.symbol.code = some row →
      row.balance.amount < value.amount → token.sub_balance owner value s = none) ∧
    (∀ row, findAcct s.accounts owner value.symbol.code = some row →
      row.balance.amount = value.amount →
      token.sub_balance owner value s =
        some { s with accounts := eraseAcct s.accounts owner value.symbol.code }) ∧
    (∀ row s2, findAcct s.accounts owner value.symbol.code = some row →
      value.amount < row.balance.amount →
      token.sub_balance owner value s = some s2 →
      ∃ b, Asset.sub row.balance value = some b ∧
        b.amount = row.balance.amount - value.amount ∧
        findAcct s2.accounts owner value.symbol.code = some ⟨b, row.claimed, owner⟩) := by
  refine ⟨?_, ?_, ?_, ?_⟩
  · intro hnone
    simp [token.sub_balance, hnone]
  · intro row hrow hlt
    have hn : ¬(value.amount ≤ row.balance.amount) := not_le.mpr hlt
    simp [token.sub_balance, hrow, chk, hn]
  · intro row hrow heq
    have hle : value.amount ≤ row.balance.amount := le_of_eq heq.symm
    simp [token.sub_balance, hrow, chk, hle, heq]
  · intro row s2 hrow hlt h
    obtain ⟨row', hrow', -, hcase⟩ := token.sub_balance_elim h
    rw [hrow] at hrow'
    injection hrow' with he
    subst he
    rcases hcase with ⟨heq, -⟩ | ⟨-, b, hsub, rfl⟩
    · omega
    refine ⟨b, hsub, (Asset.sub_eq_some hsub).1, ?_⟩
    have hb : b.symbol = row.balance.symbol := (Asset.sub_eq_some hsub).2.1
    have hcode : row.balance.symbol.code = value.symbol.code := findAcct_some_code hrow
    have hf : ∀ e ∈ s.accounts, e.1 = owner →
        e.2.balance.symbol.code = value.symbol.code →
        ((fun a : AccountRow => { a with balance := b, payer := owner }) e.2).balance.symbol.code = value.symbol.code := by
      intro e he h1 h2
      show b.symbol.code = value.symbol.code
      rw [hb, hcode]
    show findAcct (modifyAcct s.accounts owner value.symbol.code (fun a : AccountRow => { a with balance := b, payer := owner })) owner value.symbol.code = _
    rw [findAcct_modify_self hf, hrow]
    rfl

theorem claim_C6_witness :
    token.sub_balance 2 ⟨100, sym0⟩ sBase = some ⟨[(65, stTOK)], []⟩ :=
  (claim_C6_amended 2 ⟨100, sym0⟩ sBase).2.2.1 ⟨⟨100, sym0⟩, true, 2⟩
    (by decide) (by decide)

/-- Claim C3: in the primary variant, issue fails whenever `to` differs
from the registry issuer; a successful issue changes no balance record of
any owner other than the issuer; and in the second variant an issue to a
third party is exactly an issue to the issuer followed by a secondary
transfer from the issuer to that party. -/
theorem claim_C3 :
    (∀ (env : Env) (dst : Name) (quantity : Asset) (memo : String) (s : State)
      (st : CurrencyStats), findStat s.stats quantity.symbol.code = some st →
      dst ≠ st.issuer → token.issue env dst quantity memo s = none) ∧
    (∀ (env : Env) (dst : Name) (quantity : Asset) (memo : String) (s s2 : State)
      (st : CurrencyStats), findStat s.stats quantity.symbol.code = some st →
      token.issue env dst quantity memo s = some s2 →
      dst = st.issuer ∧
      ∀ (o : Name) (c : Nat), o ≠ st.issuer →
        findAcct s2.accounts o c = findAcct s.accounts o c) ∧
    (∀ (env : Env) (dst : Name) (quantity : Asset) (memo : String) (s : State)
      (st : CurrencyStats), findStat s.stats quantity.symbol.code = some st →
      dst ≠ st.issuer →
      token2.issue env dst quantity memo s =
        (token.issue env st.issuer quantity memo s).bind
          (token.transfer env st.issuer dst quantity memo)) := by
  refine ⟨?_, ?_, ?_⟩
  · intro env dst quantity memo s st hfind hne
    cases h : token.issue env dst quantity memo s with
    | none => rfl
    | some s2 =>
      obtain ⟨-, -, st', -, hfind', hdst, -⟩ := token.issue_elim h
      rw [hfind] at hfind'
      injection hfind' with he
      subst he
      exact absurd hdst hne
  · intro env dst quantity memo s s2 st hfind h
    obtain ⟨-, -, st', supply1, hfind', hdst, -, -, -, -, -, -, hab⟩ := token.issue_elim h
    rw [hfind] at hfind'
    injection hfind' with he
    subst he
    refine ⟨hdst, fun o c ho => ?_⟩
    exact @token.add_balance_find_other st.issuer quantity st.issuer true { s with stats := modifyStat s.stats quantity.symbol.code (fun r => { r with supply := supply1 }) } s2 o c hab (by rintro ⟨h1, -⟩; exact ho h1)
  · intro env dst quantity memo s st hfind hne
    simp only [token2.issue, token.issue, hfind, chk_bind]
    cases hadd : Asset.add st.supply quantity with
    | none => simp [chk, hadd]
    | some supply1 =>
      have h2t : token2.transfer = token.transfer := rfl
      have h2a : token2.add_balance = token.add_balance := rfl
      simp [chk, hadd, hne, h2t, h2a]

/-- Claim C10: the two source variants agree extensionally on create,
update, burn, transfer, claim and recover, and their issue actions
differ (the second variant accepts a non-issuer recipient via an inline
secondary transfer, the first rejects it). -/
theorem claim_C10 :
    token2.create = token.create ∧ token2.update = token.update ∧
    token2.burn = token.burn ∧ token2.transfer = token.transfer ∧
    token2.claim = token.claim ∧ token2.recover = token.recover ∧
    ∃ (env : Env) (dst : Name) (quantity : Asset) (memo : String) (s : State),
      token2.issue env dst quantity memo s ≠ token.issue env dst quantity memo s := by
  refine ⟨rfl, rfl, rfl, rfl, rfl, rfl, env0, 2, ⟨100, sym0⟩, memo0, sBase, ?_⟩
  decide

theorem claim_C3_witness :
    token.issue env0 2 ⟨100, sym0⟩ memo0 sBase = none :=
  claim_C3.1 env0 2 ⟨100, sym0⟩ memo0 sBase stTOK (by decide) (by decide)

/-- Claim C2, counterexample: in a transfer from 2 (not the issuer, which
is 1) to 3, the recipient's fresh record is marked claimed but its
storage is billed to the sender 2, not to the recipient 3. -/
theorem claim_C2_counterexample :
    token.transfer env0 2 3 ⟨40, sym0⟩ memo0 sBase =
      some ⟨[(65, stTOK)], [(3, ⟨⟨40, sym0⟩, true, 2⟩), (2, ⟨⟨60, sym0⟩, true, 2⟩)]⟩ ∧
    ((findAcct (⟨[(65, stTOK)], [(3, ⟨⟨40, sym0⟩, true, 2⟩), (2, ⟨⟨60, sym0⟩, true, 2⟩)]⟩ : State).accounts 3 65).map AccountRow.payer = some 2) ∧
    (2 : Name) ≠ 3 := by
  decide

/-- Claim C2 (amended): after a successful transfer in which `from` is
not the symbol's issuer, `to`'s resulting record is marked claimed and is
billed to `from` when `to` had no record or an unclaimed one, while a
record that was already claimed keeps its payer; when `from` is the
issuer, a newly created record is billed to the issuer with
`claimed = false`, and an existing record keeps its flag and payer. -/
theorem claim_C2_amended (env : Env) (frm dst : Name) (quantity : Asset) (memo : String)
    (s sfin : State) (st : CurrencyStats)
    (hfind : findStat s.stats quantity.symbol.code = some st)
    (h : token.transfer env frm dst quantity memo s = some sfin) :
    (frm ≠ st.issuer →
      (findAcct s.accounts dst quantity.symbol.code = none →
        findAcct sfin.accounts dst quantity.symbol.code = some ⟨quantity, true, frm⟩) ∧
      (∀ r0, findAcct s.accounts dst quantity.symbol.code = some r0 →
        r0.claimed = false →
        ∃ b, Asset.add r0.balance quantity = some b ∧
          findAcct sfin.accounts dst quantity.symbol.code = some ⟨b, true, frm⟩) ∧
      (∀ r0, findAcct s.accounts dst quantity.symbol.code = some r0 →
        r0.claimed = true →
        ∃ b, Asset.add r0.balance quantity = some b ∧
          findAcct sfin.accounts dst quantity.symbol.code = some ⟨b, true, r0.payer⟩)) ∧
    (frm = st.issuer →
      (findAcct s.accounts dst quantity.symbol.code = none →
        findAcct sfin.accounts dst quantity.symbol.code = some ⟨quantity, false, frm⟩) ∧
      (∀ r0, findAcct s.accounts dst quantity.symbol.code = some r0 →
        ∃ b, Asset.add r0.balance quantity = some b ∧
          findAcct sfin.accounts dst quantity.symbol.code =
            some ⟨b, r0.claimed, r0.payer⟩)) := by
  obtain ⟨hneq, -, -, st', hfind', -, -, -, -, s1, s2, s3, hs1, hs2, hs3, hlast⟩ :=
    token.transfer_elim h
  rw [hfind] at hfind'
  injection hfind' with he
  subst he
  have hfr : findAcct s2.accounts dst quantity.symbol.code =
      findAcct s.accounts dst quantity.symbol.code := by
    rw [token.sub_balance_find_other hs2 (by rintro ⟨h1, -⟩; exact hneq h1.symm),
      token.do_claim_find_other hs1 (by rintro ⟨h1, -⟩; exact hneq h1.symm)]
  constructor
  · intro hiss
    have hd : decide (frm ≠ st.issuer) = true := decide_eq_true hiss
    have hdc : (frm ≠ st.issuer ∧ token.do_claim env dst quantity.symbol frm s3 = some sfin) := by
      rcases hlast with hok | ⟨heq, -⟩
      · exact hok
      · exact absurd heq hiss
    obtain ⟨-, hdc⟩ := hdc
    refine ⟨?_, ?_, ?_⟩
    · intro hnone
      rcases token.add_balance_find_self hs3 with ⟨-, hfound3⟩ | ⟨r0, b, hr0, -, -⟩
      · rw [hd] at hfound3
        obtain ⟨-, -, row3, hrow3, hcase3⟩ := token.do_claim_elim hdc
        rw [hfound3] at hrow3
        injection hrow3 with he
        subst he
        rcases hcase3 with ⟨-, rfl⟩ | ⟨hc3, -, -⟩
        · exact hfound3
        · exact absurd hc3 (by simp)
      · rw [hfr, hnone] at hr0
        exact Option.noConfusion hr0
    · intro r0 hr0s hc0
      rcases token.add_balance_find_self hs3 with ⟨hnone3, -⟩ | ⟨r0', b, hr0', hadd, hfound3⟩
      · rw [hfr, hr0s] at hnone3
        exact Option.noConfusion hnone3
      · rw [hfr, hr0s] at hr0'
        injection hr0' with he
        subst he
        obtain ⟨-, -, row3, hrow3, hcase3⟩ := token.do_claim_elim hdc
        rw [hfound3] at hrow3
        injection hrow3 with he
        subst he
        rcases hcase3 with ⟨hc3, -⟩ | ⟨-, -, rfl⟩
        · rw [hc0] at hc3
          exact absurd hc3 (by simp)
        · refine ⟨b, hadd, ?_⟩
          have hcb : b.symbol.code = quantity.symbol.code := by
            rw [(Asset.add_eq_some hadd).2.1]
            exact findAcct_some_code hr0s
          show findAcct ((dst, ⟨b, true, frm⟩) ::
            eraseAcct s3.accounts dst quantity.symbol.code) dst quantity.symbol.code = _
          rw [findAcct, if_pos ⟨rfl, hcb⟩]
    · intro r0 hr0s hc0
      rcases token.add_balance_find_self hs3 with ⟨hnone3, -⟩ | ⟨r0', b, hr0', hadd, hfound3⟩
      · rw [hfr, hr0s] at hnone3
        exact Option.noConfusion hnone3
      · rw [hfr, hr0s] at hr0'
        injection hr0' with he
        subst he
        obtain ⟨-, -, row3, hrow3, hcase3⟩ := token.do_claim_elim hdc
        rw [hfound3] at hrow3
        injection hrow3 with he
        subst he
        rcases hcase3 with ⟨-, rfl⟩ | ⟨hc3, -, -⟩
        · rw [hc0] at hfound3
          exact ⟨b, hadd, hfound3⟩
        · rw [hc0] at hc3
          exact absurd hc3 (by simp)
  · intro hiss
    have hd : decide (frm ≠ st.issuer) = false := decide_eq_false (fun hk => hk hiss)
    have hfin : sfin = s3 := by
      rcases hlast with ⟨hne, -⟩ | ⟨-, hfin⟩
      · exact absurd hiss hne
      · exact hfin
    subst hfin
    constructor
    · intro hnone
      rcases token.add_balance_find_self hs3 with ⟨-, hfound3⟩ | ⟨r0, b, hr0, -, -⟩
      · rw [hd] at hfound3
        exact hfound3
      · rw [hfr, hnone] at hr0
        exact Option.noConfusion hr0
    · intro r0 hr0s
      rcases token.add_balance_find_self hs3 with ⟨hnone3, -⟩ | ⟨r0', b, hr0', hadd, hfound3⟩
      · rw [hfr, hr0s] at hnone3
        exact Option.noConfusion hnone3
      · rw [hfr, hr0s] at hr0'
        injection hr0' with he
        subst he
        exact ⟨b, hadd, hfound3⟩

theorem claim_C2_witness :
    findAcct (⟨[(65, stTOK)], [(3, ⟨⟨40, sym0⟩, true, 2⟩), (2, ⟨⟨60, sym0⟩, true, 2⟩)]⟩ : State).accounts 3 65 = some ⟨⟨40, sym0⟩, true, 2⟩ :=
  ((claim_C2_amended env0 2 3 ⟨40, sym0⟩ memo0 sBase
      ⟨[(65, stTOK)], [(3, ⟨⟨40, sym0⟩, true, 2⟩), (2, ⟨⟨60, sym0⟩, true, 2⟩)]⟩ stTOK
      (by decide) (by decide)).1 (by decide)).1 (by decide)
